import Mathlib

/-!
# Verification of `pkg/crawler/db.go`

A shallow embedding of the PostgreSQL storage backend of the crawler
(`Storage.CheckPageExists`, `Storage.AddPage`, `Storage.CheckLinkExists`,
`Storage.AddLink`, `Storage.BatchAddLinks`, `Storage.BatchAddPages`,
`ReplaceSQL`) together with a model of the database it talks to.

* Go strings are lists of characters (`Str`); the `strings` and `strconv`
  functions used by the source are modelled by their documented behaviour.
* A call of a `Storage` method is a function from a `World` (the tables of the
  database, what the transport does to each database call, the events so far)
  to its result and the next `World`. The events are the lock operations and
  the database calls, in program order.
* The database is the one `Init` sets up: two tables with their primary keys
  and the two foreign keys of the link table. The single-row statements are
  fixed texts with `$n` parameters and are modelled by what they do; the
  batch statements are built as text by the source, and the server accepts
  exactly the well-formed multi-row inserts into its two tables.
* `Hash`, `Page` and `Link` are declared elsewhere in the package: `Hash` is a
  parameter of every definition that needs it, `Page` and `Link` carry the
  fields the storage reads.
* Concurrent calls of `AddPage` are interleavings of their atomic operations
  (`Sys`, `stepThread`, `runSchedule`).
-/

namespace Crawler

/-- Go `string`, as the list of its characters. -/
abbrev Str := List Char

/-! ## The `strings` and `strconv` functions used by the source -/

/-- Number of non-overlapping occurrences of a non-empty `substr`, scanning
from the left; `skip` characters are still covered by the last match. -/
def countFrom (substr : Str) : Nat → Str → Nat
  | _, [] => 0
  | skip + 1, _ :: t => countFrom substr skip t
  | 0, c :: t =>
    if substr.isPrefixOf (c :: t) then countFrom substr (substr.length - 1) t + 1
    else countFrom substr 0 t

/-- Go `strings.Count(s, substr)`: the number of non-overlapping instances of
`substr` in `s`; for an empty `substr`, one more than the number of characters. -/
def Count (s substr : Str) : Nat :=
  if substr = [] then s.length + 1 else countFrom substr 0 s

/-- Go `strings.Replace(s, old, new, 1)`: `s` with the first instance of `old`
replaced by `new` (an empty `old` matches at the beginning of the string). -/
def Replace (old new : Str) : Str → Str
  | [] => if old.isPrefixOf [] then new else []
  | c :: t =>
    if old.isPrefixOf (c :: t) then new ++ (c :: t).drop old.length
    else c :: Replace old new t

/-- Go `strings.TrimSuffix(s, suffix)`. -/
def TrimSuffix (s suffix : Str) : Str :=
  if suffix.isSuffixOf s then s.take (s.length - suffix.length) else s

/-- Go `strconv.Itoa(m)` for a non-negative `m`. -/
def Itoa (m : Nat) : Str := Nat.toDigits 10 m

/-- The loop of `ReplaceSQL`: `for m := 1; m <= tmpCount; m++`, with `k` the
number of iterations still to run (`tmpCount + 1 - m`). -/
def ReplaceSQL.loop (searchPattern : Str) : Nat → Nat → Str → Str
  | 0, _, old => old
  | k + 1, m, old =>
    ReplaceSQL.loop searchPattern k (m + 1) (Replace searchPattern ('$' :: Itoa m) old)

/-- `ReplaceSQL(old, searchPattern)` of `db.go`. -/
def ReplaceSQL (old searchPattern : Str) : Str :=
  ReplaceSQL.loop searchPattern (Count old searchPattern) 1 old

/-! ## The reading of "the i-th occurrence replaced by `$i`" -/

/-- The text obtained from a string by replacing, from the left, the
non-overlapping occurrences of a non-empty pattern `p` by `$i`, `$(i+1)`, ...;
`skip` characters are still covered by the occurrence just replaced. -/
def numberOccurrences (p : Str) : Nat → Nat → Str → Str
  | _, _, [] => []
  | skip + 1, i, _ :: t => numberOccurrences p skip i t
  | 0, i, c :: t =>
    if p.isPrefixOf (c :: t) then '$' :: Itoa i ++ numberOccurrences p (p.length - 1) (i + 1) t
    else c :: numberOccurrences p 0 i t

/-! ## Data model -/

/-- The views of a `*url.URL` the storage reads: `Hostname()`, `EscapedPath()`
and `String()`. -/
structure URL where
  hostname : Str
  escapedPath : Str
  string : Str
deriving DecidableEq

/-- A `Page` of the package, as far as the storage reads it. -/
structure Page where
  U : URL
deriving DecidableEq

/-- A `Link` of the package, as far as the storage reads it. -/
structure Link where
  FromU : URL
  ToU : URL
  LinkText : Str
  LinkType : Str
deriving DecidableEq

/-- The configuration of a `Storage`: the two table names. -/
structure Storage where
  PageTable : Str
  LinkTable : Str
deriving DecidableEq

/-- A row of the page table created by `Init`. -/
structure PageRow where
  page_id : Str
  host : Str
  path : Str
  url : Str
deriving DecidableEq

/-- A row of the link table created by `Init`. -/
structure LinkRow where
  from_page_id : Str
  to_page_id : Str
  text : Str
  type : Str
deriving DecidableEq

/-- The contents of the two tables. -/
structure Tables where
  pages : List PageRow
  links : List LinkRow
deriving DecidableEq

/-- The errors a database call can return. -/
inductive DbError
  | transport (code : Nat)
  | uniqueViolation
  | foreignKeyViolation
  | syntaxError
  | parameterMismatch
deriving DecidableEq

/-- What a call does that others can observe: lock operations on the two
`sync.RWMutex`es and calls on the database handle. -/
inductive Event
  | linkLock
  | linkUnlock
  | pageRLock
  | pageRUnlock
  | pageLock
  | pageUnlock
  | queryPageExists (table page_id : Str)
  | insertPage (table : Str) (row : PageRow)
  | queryLinkExists (table from_page_id to_page_id : Str)
  | insertLink (table : Str) (row : LinkRow)
  | prepare (sql : Str)
  | stmtExec (sql : Str) (vals : List Str)
deriving DecidableEq

/-- The state a call runs in: the tables, the outcome the transport has in
store for each database call (`faults i = some e`: the call number `i` fails
with `e` before reaching the server; `none`: it reaches the server), the
number of database calls made so far, and the events so far. -/
structure World where
  db : Tables
  faults : Nat → Option DbError
  calls : Nat
  trace : List Event

/-- Record an event. -/
def World.emit (w : World) (e : Event) : World :=
  { w with trace := w.trace ++ [e] }

/-- Take the transport's outcome for the next database call. -/
def World.nextFault (w : World) : Option DbError × World :=
  (w.faults w.calls, { w with calls := w.calls + 1 })

/-- No database call fails in the transport. -/
def World.NoFaults (w : World) : Prop := ∀ i, w.faults i = none

/-! ## The database server

The tables are those `Init` creates: `page_id` is the primary key of the page
table, `(from_page_id, to_page_id)` the primary key of the link table, and
both columns of a link row reference `page_id` of the page table. -/

/-- `SELECT EXISTS(SELECT page_id FROM pages WHERE page_id = $1)`. -/
def pageExists (db : Tables) (k : Str) : Bool :=
  db.pages.any (fun r => r.page_id == k)

/-- `SELECT EXISTS(SELECT to_page_id FROM links WHERE from_page_id = $1 AND
to_page_id = $2)`. -/
def linkExists (db : Tables) (f t : Str) : Bool :=
  db.links.any (fun r => r.from_page_id == f && r.to_page_id == t)

/-- A plain `INSERT` of one page row: refused when the primary key exists. -/
def insertPageRow (db : Tables) (row : PageRow) : Except DbError Tables :=
  if pageExists db row.page_id then .error .uniqueViolation
  else .ok { db with pages := db.pages ++ [row] }

/-- A plain `INSERT` of one link row: refused when the primary key exists or
one of the two foreign keys has no page row. -/
def insertLinkRow (db : Tables) (row : LinkRow) : Except DbError Tables :=
  if linkExists db row.from_page_id row.to_page_id then .error .uniqueViolation
  else if pageExists db row.from_page_id && pageExists db row.to_page_id then
    .ok { db with links := db.links ++ [row] }
  else .error .foreignKeyViolation

/-- A multi-row `INSERT ... ON CONFLICT DO NOTHING` into the page table: rows
are taken in order, a row whose key is present (from before or from an earlier
row of the statement) is skipped. -/
def insertPagesSkip (db : Tables) : List PageRow → Tables
  | [] => db
  | r :: rs =>
    insertPagesSkip
      (if pageExists db r.page_id then db else { db with pages := db.pages ++ [r] }) rs

/-- A multi-row `INSERT ... ON CONFLICT DO NOTHING` into the link table: a row
whose key is present is skipped; a row that is inserted must have both its
pages, or the whole statement fails and inserts nothing. -/
def insertLinksSkip (db : Tables) : List LinkRow → Except DbError Tables
  | [] => .ok db
  | r :: rs =>
    if linkExists db r.from_page_id r.to_page_id then insertLinksSkip db rs
    else if pageExists db r.from_page_id && pageExists db r.to_page_id then
      insertLinksSkip { db with links := db.links ++ [r] } rs
    else .error .foreignKeyViolation

/-- The primary key of the page table: no two rows share a `page_id`. -/
def Tables.pageKeysUnique (db : Tables) : Prop :=
  (db.pages.map fun r => r.page_id).Nodup

/-- The primary key of the link table: no two rows share both page ids. -/
def Tables.linkKeysUnique (db : Tables) : Prop :=
  (db.links.map fun r => (r.from_page_id, r.to_page_id)).Nodup

/-- The two foreign keys of the link table: both pages of a link row exist. -/
def Tables.foreignKeys (db : Tables) : Prop :=
  ∀ r ∈ db.links, pageExists db r.from_page_id = true ∧ pageExists db r.to_page_id = true

/-- The tables satisfy the constraints of the schema of `Init`. -/
def Tables.Valid (db : Tables) : Prop :=
  db.pageKeysUnique ∧ db.linkKeysUnique ∧ db.foreignKeys

instance (db : Tables) : Decidable db.pageKeysUnique :=
  inferInstanceAs (Decidable (List.Nodup _))

instance (db : Tables) : Decidable db.linkKeysUnique :=
  inferInstanceAs (Decidable (List.Nodup _))

instance (db : Tables) : Decidable db.foreignKeys :=
  inferInstanceAs (Decidable (∀ r ∈ db.links, _))

instance (db : Tables) : Decidable db.Valid :=
  inferInstanceAs (Decidable (_ ∧ _ ∧ _))

/-- The j-th group of a multi-row `VALUES` clause with four columns:
`($4j+1, $4j+2, $4j+3, $4j+4)`. -/
def valueGroup (j : Nat) : Str :=
  '(' :: '$' :: Itoa (4 * j + 1) ++ ',' :: ' ' :: '$' :: Itoa (4 * j + 2) ++
    ',' :: ' ' :: '$' :: Itoa (4 * j + 3) ++ ',' :: ' ' :: '$' :: Itoa (4 * j + 4) ++ [')']

/-- The `n` groups 0, ..., n-1, separated by commas. -/
def valueGroups (n : Nat) : Str :=
  List.intercalate [','] ((List.range n).map valueGroup)

/-- The skip-on-conflict clause. -/
def onConflictClause : Str := " ON CONFLICT DO NOTHING".toList

/-- A well-formed multi-row insert with `n` value rows: the `INSERT` prefix,
the `n` groups, the skip-on-conflict clause. -/
def batchShape (head : Str) (n : Nat) : Str :=
  head ++ valueGroups n ++ onConflictClause

/-- The `INSERT` prefix of the page batch,
`fmt.Sprintf("INSERT INTO %s (page_id, host, path, url) VALUES ", s.PageTable)`. -/
def pagesHead (s : Storage) : Str :=
  "INSERT INTO ".toList ++ s.PageTable ++ " (page_id, host, path, url) VALUES ".toList

/-- The `INSERT` prefix of the link batch,
`fmt.Sprintf("INSERT INTO %s (from_page_id, to_page_id, text, type) VALUES ", s.LinkTable)`. -/
def linksHead (s : Storage) : Str :=
  "INSERT INTO ".toList ++ s.LinkTable ++
    " (from_page_id, to_page_id, text, type) VALUES ".toList

/-- Whether `sql` is a well-formed multi-row insert with the given prefix and
at least one value row. The number of rows is read off the number of
parameters after the prefix. -/
def isBatchInsert (head sql : Str) : Bool :=
  let n := (sql.drop head.length).count '$' / 4
  decide (1 ≤ n) && sql == batchShape head n

/-- The table a prepared batch statement inserts into. -/
inductive StmtKind
  | pages
  | links
deriving DecidableEq

/-- A prepared statement (`*sql.Stmt`). -/
structure Stmt where
  sql : Str
  kind : StmtKind
deriving DecidableEq

/-- The server parsing a statement sent by `Prepare`: it accepts the
well-formed multi-row inserts into its two tables and answers everything else,
an `INSERT` whose `VALUES` clause has no value rows included, with an error. -/
def serverPrepare (s : Storage) (sql : Str) : Except DbError Stmt :=
  if isBatchInsert (pagesHead s) sql then .ok ⟨sql, .pages⟩
  else if isBatchInsert (linksHead s) sql then .ok ⟨sql, .links⟩
  else .error .syntaxError

/-- The arguments of a statement, four by four. -/
def rowsOf : List Str → List (Str × Str × Str × Str)
  | a :: b :: c :: d :: rest => (a, b, c, d) :: rowsOf rest
  | _ => []

/-- The server executing a prepared batch statement: the number of arguments
must be the number of parameters of the statement. -/
def serverExec (s : Storage) (st : Stmt) (vals : List Str) (db : Tables) :
    Except DbError Tables :=
  match st.kind with
  | .pages =>
    if vals.length % 4 = 0 ∧ st.sql = batchShape (pagesHead s) (vals.length / 4) then
      .ok (insertPagesSkip db ((rowsOf vals).map fun r => ⟨r.1, r.2.1, r.2.2.1, r.2.2.2⟩))
    else .error .parameterMismatch
  | .links =>
    if vals.length % 4 = 0 ∧ st.sql = batchShape (linksHead s) (vals.length / 4) then
      insertLinksSkip db ((rowsOf vals).map fun r => ⟨r.1, r.2.1, r.2.2.1, r.2.2.2⟩)
    else .error .parameterMismatch

/-! ## Calls on the database handle (`s.db`) -/

/-- `s.db.QueryRow(query, Hash(u)).Scan(&isVisited)` on the page table;
`isVisited` keeps its zero value when the call fails. -/
def queryRowPage (s : Storage) (k : Str) (w : World) : (Bool × Option DbError) × World :=
  let w := w.emit (.queryPageExists s.PageTable k)
  match w.nextFault with
  | (some e, w) => ((false, some e), w)
  | (none, w) => ((pageExists w.db k, none), w)

/-- `s.db.QueryRow(query, Hash(fromU), Hash(toU)).Scan(&isVisited)` on the
link table. -/
def queryRowLink (s : Storage) (f t : Str) (w : World) : (Bool × Option DbError) × World :=
  let w := w.emit (.queryLinkExists s.LinkTable f t)
  match w.nextFault with
  | (some e, w) => ((false, some e), w)
  | (none, w) => ((linkExists w.db f t, none), w)

/-- `s.db.Exec(query, ...)` of the single-row page insert. -/
def execInsertPage (s : Storage) (row : PageRow) (w : World) : Option DbError × World :=
  let w := w.emit (.insertPage s.PageTable row)
  match w.nextFault with
  | (some e, w) => (some e, w)
  | (none, w) =>
    match insertPageRow w.db row with
    | .ok db => (none, { w with db := db })
    | .error e => (some e, w)

/-- `s.db.Exec(query, ...)` of the single-row link insert. -/
def execInsertLink (s : Storage) (row : LinkRow) (w : World) : Option DbError × World :=
  let w := w.emit (.insertLink s.LinkTable row)
  match w.nextFault with
  | (some e, w) => (some e, w)
  | (none, w) =>
    match insertLinkRow w.db row with
    | .ok db => (none, { w with db := db })
    | .error e => (some e, w)

/-- `s.db.Prepare(sqlStr)`: the statement, or `none` for the nil statement
that comes with an error. -/
def dbPrepare (s : Storage) (sql : Str) (w : World) : (Option Stmt × Option DbError) × World :=
  let w := w.emit (.prepare sql)
  match w.nextFault with
  | (some e, w) => ((none, some e), w)
  | (none, w) =>
    match serverPrepare s sql with
    | .ok st => ((some st, none), w)
    | .error e => ((none, some e), w)

/-- `stmt.Exec(vals...)` on a non-nil statement. -/
def stmtExec (s : Storage) (st : Stmt) (vals : List Str) (w : World) : Option DbError × World :=
  let w := w.emit (.stmtExec st.sql vals)
  match w.nextFault with
  | (some e, w) => (some e, w)
  | (none, w) =>
    match serverExec s st vals w.db with
    | .ok db => (none, { w with db := db })
    | .error e => (some e, w)

/-! ## The methods of `Storage` -/

section Methods

variable (Hash : URL → Str)

/-- `Storage.CheckPageExists`. -/
def CheckPageExists (s : Storage) (u : URL) (w : World) : (Bool × Option DbError) × World :=
  let w := w.emit .pageRLock
  let (r, w) := queryRowPage s (Hash u) w
  let w := w.emit .pageRUnlock
  (r, w)

/-- `Storage.AddPage`. -/
def AddPage (s : Storage) (u : URL) (w : World) : Option DbError × World :=
  match CheckPageExists Hash s u w with
  | ((_, some err), w) => (some err, w)
  | ((true, none), w) => (none, w)
  | ((false, none), w) =>
    let w := w.emit .pageLock
    let (err, w) := execInsertPage s ⟨Hash u, u.hostname, u.escapedPath, u.string⟩ w
    let w := w.emit .pageUnlock
    (err, w)

/-- `Storage.CheckLinkExists`. -/
def CheckLinkExists (s : Storage) (fromU toU : URL) (w : World) :
    (Bool × Option DbError) × World :=
  queryRowLink s (Hash fromU) (Hash toU) w

/-- `Storage.AddLink`; the deferred `s.linkLock.Unlock()` runs at each return. -/
def AddLink (s : Storage) (fromU toU : URL) (linkText linkType : Str) (w : World) :
    Option DbError × World :=
  let w := w.emit .linkLock
  match CheckLinkExists Hash s fromU toU w with
  | ((_, some err), w) => (some err, w.emit .linkUnlock)
  | ((true, none), w) => (none, w.emit .linkUnlock)
  | ((false, none), w) =>
    let (_, w) := AddPage Hash s fromU w
    let (_, w) := AddPage Hash s toU w
    let (err, w) := execInsertLink s ⟨Hash fromU, Hash toU, linkText, linkType⟩ w
    (err, w.emit .linkUnlock)

/-- How a batch call ends: it returns an error value (`none` for nil), or it
panics on the nil statement left by a failed `Prepare`. -/
inductive Outcome
  | returned (err : Option DbError)
  | panicked
deriving DecidableEq

/-- The statement text and the arguments `BatchAddPages` builds. -/
def batchPagesStmt (s : Storage) (pages : List Page) : Str × List Str :=
  let sqlStr := "INSERT INTO ".toList ++ s.PageTable ++ " (page_id, host, path, url) VALUES ".toList
  let (sqlStr, vals) := pages.foldl
    (fun (acc : Str × List Str) page =>
      (acc.1 ++ "(?, ?, ?, ?),".toList,
       acc.2 ++ [Hash page.U, page.U.hostname, page.U.escapedPath, page.U.string]))
    (sqlStr, [])
  let sqlStr := TrimSuffix sqlStr [',']
  let sqlStr := sqlStr ++ " ON CONFLICT DO NOTHING".toList
  let sqlStr := ReplaceSQL sqlStr ['?']
  (sqlStr, vals)

/-- The statement text and the arguments `BatchAddLinks` builds. -/
def batchLinksStmt (s : Storage) (links : List Link) : Str × List Str :=
  let sqlStr := "INSERT INTO ".toList ++ s.LinkTable ++
    " (from_page_id, to_page_id, text, type) VALUES ".toList
  let (sqlStr, vals) := links.foldl
    (fun (acc : Str × List Str) link =>
      (acc.1 ++ "(?, ?, ?, ?),".toList,
       acc.2 ++ [Hash link.FromU, Hash link.ToU, link.LinkText, link.LinkType]))
    (sqlStr, [])
  let sqlStr := TrimSuffix sqlStr [',']
  let sqlStr := sqlStr ++ " ON CONFLICT DO NOTHING".toList
  let sqlStr := ReplaceSQL sqlStr ['?']
  (sqlStr, vals)

/-- The tail of both batch methods: `stmt, _ := s.db.Prepare(sqlStr)`, then
`stmt.Exec(vals...)`, which dereferences the statement. -/
def prepareAndExec (s : Storage) (sqlStr : Str) (vals : List Str) (w : World) :
    Outcome × World :=
  match dbPrepare s sqlStr w with
  | ((none, _), w) => (.panicked, w)
  | ((some stmt, _), w) =>
    let (err, w) := stmtExec s stmt vals w
    (.returned err, w)

/-- `Storage.BatchAddPages`. -/
def BatchAddPages (s : Storage) (pages : List Page) (w : World) : Outcome × World :=
  let (sqlStr, vals) := batchPagesStmt Hash s pages
  prepareAndExec s sqlStr vals w

/-- `Storage.BatchAddLinks`. -/
def BatchAddLinks (s : Storage) (links : List Link) (w : World) : Outcome × World :=
  let (sqlStr, vals) := batchLinksStmt Hash s links
  prepareAndExec s sqlStr vals w

end Methods

/-! ## Lock events -/

/-- Scanning a sequence of events, with `held` telling whether the link lock
is held at its start: whether the page lock is acquired, shared or exclusive,
at a moment the link lock is held. -/
def pageAcquiredUnderLink : Bool → List Event → Bool
  | _, [] => false
  | _, .linkLock :: es => pageAcquiredUnderLink true es
  | _, .linkUnlock :: es => pageAcquiredUnderLink false es
  | held, .pageRLock :: es => held || pageAcquiredUnderLink held es
  | held, .pageLock :: es => held || pageAcquiredUnderLink held es
  | held, _ :: es => pageAcquiredUnderLink held es

/-- How the caller holds the page lock. -/
inductive PageHold
  | free
  | shared
  | exclusive
deriving DecidableEq

/-- The nesting of the two locks in a sequence of events, from a state where
`link` tells whether the link lock is held and `page` how the page lock is:
the link lock is acquired only when neither lock is held, the page lock is
acquired only under the link lock and when it is free, each unlock releases
what is held, the link lock is released only when the page lock is free, and
nothing is held at the end. -/
def lockDiscipline : Bool → PageHold → List Event → Bool
  | link, page, [] => !link && decide (page = .free)
  | false, .free, .linkLock :: es => lockDiscipline true .free es
  | true, .free, .linkUnlock :: es => lockDiscipline false .free es
  | true, .free, .pageRLock :: es => lockDiscipline true .shared es
  | true, .shared, .pageRUnlock :: es => lockDiscipline true .free es
  | true, .free, .pageLock :: es => lockDiscipline true .exclusive es
  | true, .exclusive, .pageUnlock :: es => lockDiscipline true .free es
  | _, _, .linkLock :: _ => false
  | _, _, .linkUnlock :: _ => false
  | _, _, .pageRLock :: _ => false
  | _, _, .pageRUnlock :: _ => false
  | _, _, .pageLock :: _ => false
  | _, _, .pageUnlock :: _ => false
  | link, page, _ :: es => lockDiscipline link page es

/-- The events a call adds to the trace. -/
def eventsOf (before after : World) : List Event :=
  after.trace.drop before.trace.length

/-! ## Concrete data for the examples -/

/-- An identity function on URLs for the examples: the URL string itself. -/
def idHash (u : URL) : Str := u.string

/-- A storage with tables `pages` and `links`. -/
def demoStorage : Storage := ⟨"pages".toList, "links".toList⟩

/-- The URL `http://a/`. -/
def urlA : URL := ⟨"a".toList, "/".toList, "http://a/".toList⟩

/-- The URL `http://b/`. -/
def urlB : URL := ⟨"b".toList, "/".toList, "http://b/".toList⟩

/-- A world with empty tables, no transport faults and no events. -/
def emptyWorld : World := ⟨⟨[], []⟩, fun _ => none, 0, []⟩

/-- The page row `AddPage` and `BatchAddPages` write for a URL. -/
def pageRowOf (Hash : URL → Str) (u : URL) : PageRow :=
  ⟨Hash u, u.hostname, u.escapedPath, u.string⟩

/-- A world whose page table holds `http://b/`, with no links, no transport
faults and no events. -/
def worldB : World := ⟨⟨[pageRowOf idHash urlB], []⟩, fun _ => none, 0, []⟩

/-- A world like `worldB` where the first database call fails in the transport. -/
def worldFirstFails : World :=
  ⟨⟨[pageRowOf idHash urlB], []⟩, fun i => if i = 0 then some (.transport 7) else none, 0, []⟩

/-- A world whose page table holds `http://a/` and `http://b/`, with no
links, where the second database call fails in the transport. -/
def worldSecondFails : World :=
  ⟨⟨[pageRowOf idHash urlA, pageRowOf idHash urlB], []⟩,
    fun i => if i = 1 then some (.transport 7) else none, 0, []⟩

/-- A storage whose page table has the quoted name `"p?"`. -/
def quotedStorage : Storage := ⟨Char.ofNat 34 :: 'p' :: '?' :: [Char.ofNat 34], "links".toList⟩

/-! ## Concurrent calls of `AddPage`

`N` goroutines each run `AddPage(u)` on the same `Storage`. A goroutine
advances by the atomic operations of `CheckPageExists` and `AddPage` in
program order: `s.pageLock.RLock()`, the existence query, `RUnlock()`, the
tests of `err` and `visited`, `s.pageLock.Lock()`, the insert, `Unlock()`. The
page lock is a `sync.RWMutex`: `RLock` waits while a writer holds it, `Lock`
waits while a writer or a reader holds it. The server runs each statement
atomically; the transport may fail a database call as in a `World`. -/

/-- How a call of `AddPage` ended: it found the page and returned nil, it
inserted the page and returned nil, or it returned an error. -/
inductive Finish
  | noop
  | inserted
  | failed (e : DbError)
deriving DecidableEq

/-- Where a call of `AddPage` stands. -/
inductive Pc
  | start
  | rlocked
  | queried (visited : Bool) (err : Option DbError)
  | unlocked
  | locked
  | executed (err : Option DbError)
  | done (f : Finish)
deriving DecidableEq

/-- The shared state and the `N` calls: the tables, what the transport does
to each database call, the number of database calls made so far, the readers
and the writer of the page lock, and where each call stands. -/
structure Sys where
  db : Tables
  faults : Nat → Option DbError
  calls : Nat
  readers : Nat
  writer : Bool
  threads : List Pc

/-- The start: nobody holds the page lock, every call is at its first line. -/
def initSys (db : Tables) (faults : Nat → Option DbError) (n : Nat) : Sys :=
  ⟨db, faults, 0, 0, false, List.replicate n .start⟩

/-- One atomic operation of call `i`; `none` when the call has returned or
has to wait for the page lock (or there is no call `i`).

* `start`: `s.pageLock.RLock()` of `CheckPageExists`, possible while no writer
  holds the lock;
* `rlocked`: the existence query, which leaves `isVisited` unset when it fails;
* `queried visited err`: `s.pageLock.RUnlock()`, then `AddPage` returns `err`
  when it is not nil, returns nil when `visited` is set, and goes on otherwise;
* `unlocked`: `s.pageLock.Lock()`, possible while nobody holds the lock;
* `locked`: the insert;
* `executed err`: `s.pageLock.Unlock()`, then `AddPage` returns `err`. -/
def stepThread (Hash : URL → Str) (u : URL) (σ : Sys) (i : Nat) : Option Sys :=
  match σ.threads[i]? with
  | none => none
  | some .start =>
    if σ.writer then none
    else some { σ with readers := σ.readers + 1, threads := σ.threads.set i .rlocked }
  | some .rlocked =>
    match σ.faults σ.calls with
    | some e =>
      some { σ with
        calls := σ.calls + 1
        threads := σ.threads.set i (.queried false (some e)) }
    | none =>
      some { σ with
        calls := σ.calls + 1
        threads := σ.threads.set i (.queried (pageExists σ.db (Hash u)) none) }
  | some (.queried visited err) =>
    some { σ with
      readers := σ.readers - 1
      threads := σ.threads.set i
        (match err with
          | some e => .done (.failed e)
          | none => if visited then .done .noop else .unlocked) }
  | some .unlocked =>
    if σ.writer || σ.readers != 0 then none
    else some { σ with writer := true, threads := σ.threads.set i .locked }
  | some .locked =>
    match σ.faults σ.calls with
    | some e =>
      some { σ with
        calls := σ.calls + 1
        threads := σ.threads.set i (.executed (some e)) }
    | none =>
      match insertPageRow σ.db ⟨Hash u, u.hostname, u.escapedPath, u.string⟩ with
      | .ok db =>
        some { σ with
          db := db
          calls := σ.calls + 1
          threads := σ.threads.set i (.executed none) }
      | .error e =>
        some { σ with
          calls := σ.calls + 1
          threads := σ.threads.set i (.executed (some e)) }
  | some (.executed err) =>
    some { σ with
      writer := false
      threads := σ.threads.set i
        (.done (match err with
          | none => .inserted
          | some e => .failed e)) }
  | some (.done _) => none

/-- An interleaving is the list of the calls chosen to move, one after the
other; choosing a call that cannot move changes nothing. -/
def runSchedule (Hash : URL → Str) (u : URL) : List Nat → Sys → Sys
  | [], σ => σ
  | i :: rest, σ => runSchedule Hash u rest ((stepThread Hash u σ i).getD σ)

/-- The call has returned. -/
def Pc.isDone : Pc → Bool
  | .done _ => true
  | _ => false

/-- The call has returned with an "already exists" outcome: the no-op return,
or the primary-key violation of the insert. -/
def Pc.alreadyExists : Pc → Bool
  | .done .noop => true
  | .done (.failed .uniqueViolation) => true
  | _ => false

/-- All calls have returned. -/
def Sys.allDone (σ : Sys) : Bool := σ.threads.all Pc.isDone

/-- The number of page rows with the key `k`. -/
def rowsFor (k : Str) (db : Tables) : Nat :=
  (db.pages.filter fun r => r.page_id = k).length

/-- The call has inserted its row. -/
def Pc.insertedRow : Pc → Bool
  | .executed none => true
  | .done .inserted => true
  | _ => false

/-- The call has seen that the row exists: by its query or by the refusal of
its insert. -/
def Pc.sawRow : Pc → Bool
  | .queried true _ => true
  | .done .noop => true
  | .executed (some _) => true
  | .done (.failed _) => true
  | _ => false

/-- The only error the call has met is the primary-key violation of its
insert. -/
def Pc.errorIsViolation : Pc → Bool
  | .queried _ err => err.isNone
  | .executed (some e) => decide (e = .uniqueViolation)
  | .done (.failed e) => decide (e = .uniqueViolation)
  | _ => true

/-- The call holds the page lock shared. -/
def Pc.holdsRead : Pc → Bool
  | .rlocked => true
  | .queried _ _ => true
  | _ => false

/-- The call holds the page lock exclusive. -/
def Pc.holdsWrite : Pc → Bool
  | .locked => true
  | .executed _ => true
  | _ => false

/-- The operations a call has still to run, at most. -/
def Pc.rank : Pc → Nat
  | .start => 6
  | .rlocked => 5
  | .queried _ _ => 4
  | .unlocked => 3
  | .locked => 2
  | .executed _ => 1
  | .done _ => 0

/-- The operations all calls have still to run, at most. -/
def Sys.rank (σ : Sys) : Nat := (σ.threads.map Pc.rank).sum

/-- What holds of every state the calls can reach when no database call
fails in the transport, for the key `k` and `n` calls. -/
structure Inv (k : Str) (n : Nat) (σ : Sys) : Prop where
  nofault : ∀ j, σ.faults j = none
  len : σ.threads.length = n
  rows : rowsFor k σ.db = σ.threads.countP Pc.insertedRow
  atMost : rowsFor k σ.db ≤ 1
  seen : ∀ t ∈ σ.threads, t.sawRow = true → 1 ≤ rowsFor k σ.db
  viol : ∀ t ∈ σ.threads, t.errorIsViolation = true
  readers : σ.readers = σ.threads.countP Pc.holdsRead
  writer : σ.threads.countP Pc.holdsWrite = if σ.writer then 1 else 0

/-! ## Auxiliary definitions for the proofs -/

/-- The text of one value row before renumbering. -/
def qGroup : Str := "(?, ?, ?, ?)".toList

/-- The `n` value rows before renumbering, separated by commas. -/
def qText : Nat → Str
  | 0 => []
  | 1 => qGroup
  | n + 2 => qGroup ++ ',' :: qText (n + 1)

/-- The value row whose first parameter is `$m`. -/
def numGroup (m : Nat) : Str :=
  '(' :: '$' :: Itoa m ++ ',' :: ' ' :: '$' :: Itoa (m + 1) ++
    ',' :: ' ' :: '$' :: Itoa (m + 2) ++ ',' :: ' ' :: '$' :: Itoa (m + 3) ++ [')']

/-- The `n` value rows `j`, ..., `j + n - 1`, separated by commas. -/
def numText : Nat → Nat → Str
  | _, 0 => []
  | j, 1 => valueGroup j
  | j, n + 2 => valueGroup j ++ ',' :: numText (j + 1) (n + 1)

/-- What the loop of a batch method has appended after `n` elements. -/
def qRows : Nat → Str
  | 0 => []
  | n + 1 => "(?, ?, ?, ?),".toList ++ qRows n

/-- The statement text of a batch method, from the prefix and the number of
elements: trim the last comma, add the conflict clause, renumber. -/
def buildSql (head : Str) (n : Nat) : Str :=
  ReplaceSQL (TrimSuffix (head ++ qRows n) [','] ++ " ON CONFLICT DO NOTHING".toList) ['?']

/-- The four arguments `BatchAddPages` appends for a page. -/
def pageVals (Hash : URL → Str) (p : Page) : List Str :=
  [Hash p.U, p.U.hostname, p.U.escapedPath, p.U.string]

/-- The four arguments `BatchAddLinks` appends for a link. -/
def linkVals (Hash : URL → Str) (l : Link) : List Str :=
  [Hash l.FromU, Hash l.ToU, l.LinkText, l.LinkType]

/-- The events of an `AddPage(u)` whose existence check fails or finds the page. -/
def addPageShort (Hash : URL → Str) (s : Storage) (u : URL) : List Event :=
  [.pageRLock, .queryPageExists s.PageTable (Hash u), .pageRUnlock]

/-- The events of an `AddPage(u)` that goes on to the insert. -/
def addPageLong (Hash : URL → Str) (s : Storage) (u : URL) : List Event :=
  [.pageRLock, .queryPageExists s.PageTable (Hash u), .pageRUnlock, .pageLock,
    .insertPage s.PageTable ⟨Hash u, u.hostname, u.escapedPath, u.string⟩, .pageUnlock]

/-! ## Strings -/

theorem toDigitsCore_isDigit (fuel : Nat) : ∀ (n : Nat) (ds : List Char),
    (∀ c ∈ ds, c.isDigit = true) → ∀ c ∈ Nat.toDigitsCore 10 fuel n ds, c.isDigit = true := by
  induction fuel with
  | zero => intro n ds h; simpa [Nat.toDigitsCore] using h
  | succ f ih =>
    intro n ds h
    have hd : (Nat.digitChar (n % 10)).isDigit = true := by
      have : n % 10 < 10 := Nat.mod_lt _ (by decide)
      interval_cases (n % 10) <;> decide
    simp only [Nat.toDigitsCore]
    split
    · intro c hc
      rcases List.mem_cons.1 hc with rfl | hc
      · exact hd
      · exact h c hc
    · apply ih
      intro c hc
      rcases List.mem_cons.1 hc with rfl | hc
      · exact hd
      · exact h c hc

theorem itoa_isDigit (m : Nat) : ∀ c ∈ Itoa m, c.isDigit = true := by
  unfold Itoa Nat.toDigits
  exact toDigitsCore_isDigit _ _ _ (by simp)

theorem q_not_mem_itoa (m : Nat) : '?' ∉ Itoa m := fun h => by
  have := itoa_isDigit m _ h
  revert this; decide

theorem dollar_not_mem_itoa (m : Nat) : '$' ∉ Itoa m := fun h => by
  have := itoa_isDigit m _ h
  revert this; decide

theorem replace_q_append (new pre rest : Str) (h : '?' ∉ pre) :
    Replace ['?'] new (pre ++ '?' :: rest) = pre ++ new ++ rest := by
  induction pre with
  | nil => simp [Replace, List.isPrefixOf]
  | cons c t ih =>
    have hc : ¬ ('?' = c) := fun e => h (List.mem_cons.2 (Or.inl e))
    have ht : '?' ∉ t := fun e => h (List.mem_cons.2 (Or.inr e))
    simp [Replace, List.isPrefixOf, hc, ih ht]

theorem countFrom_q (s : Str) : countFrom ['?'] 0 s = s.count '?' := by
  induction s with
  | nil => simp [countFrom]
  | cons c t ih =>
    by_cases hc : c = '?'
    · subst hc; simp [countFrom, List.isPrefixOf, ih]
    · have hc2 : ¬ ('?' = c) := fun e => hc e.symm
      simp [countFrom, List.isPrefixOf, ih, hc, hc2, List.count_cons]

theorem count_q (s : Str) : Count s ['?'] = s.count '?' := by
  simp [Count, countFrom_q]

theorem loop_q_step (k m : Nat) (pre rest : Str) (h : '?' ∉ pre) :
    ReplaceSQL.loop ['?'] (k + 1) m (pre ++ '?' :: rest) =
      ReplaceSQL.loop ['?'] k (m + 1) (pre ++ '$' :: Itoa m ++ rest) := by
  simp [ReplaceSQL.loop, replace_q_append _ _ _ h]

theorem valueGroup_eq (j : Nat) : valueGroup j = numGroup (4 * j + 1) := rfl

theorem q_not_mem_numGroup (m : Nat) : '?' ∉ numGroup m := by
  simp [numGroup, q_not_mem_itoa]

theorem loop_q_group (k m : Nat) (pre tail : Str) (h : '?' ∉ pre) :
    ReplaceSQL.loop ['?'] (k + 4) m (pre ++ qGroup ++ tail) =
      ReplaceSQL.loop ['?'] k (m + 4) (pre ++ numGroup m ++ tail) := by
  have h1 : '?' ∉ pre ++ ['('] := by simp [h]
  have e1 : pre ++ qGroup ++ tail =
      (pre ++ ['(']) ++ '?' :: (',' :: ' ' :: '?' :: ',' :: ' ' :: '?' :: ',' :: ' ' :: '?' ::
        ')' :: tail) := by simp [qGroup]
  rw [e1, loop_q_step _ _ _ _ h1]
  have h2 : '?' ∉ pre ++ ['('] ++ '$' :: Itoa m ++ [',', ' '] := by simp [h, q_not_mem_itoa]
  have e2 : pre ++ ['('] ++ '$' :: Itoa m ++
      (',' :: ' ' :: '?' :: ',' :: ' ' :: '?' :: ',' :: ' ' :: '?' :: ')' :: tail) =
      (pre ++ ['('] ++ '$' :: Itoa m ++ [',', ' ']) ++ '?' ::
        (',' :: ' ' :: '?' :: ',' :: ' ' :: '?' :: ')' :: tail) := by simp
  rw [e2, loop_q_step _ _ _ _ h2]
  have h3 : '?' ∉ pre ++ ['('] ++ '$' :: Itoa m ++ [',', ' '] ++ '$' :: Itoa (m + 1) ++
      [',', ' '] := by simp [h, q_not_mem_itoa]
  have e3 : pre ++ ['('] ++ '$' :: Itoa m ++ [',', ' '] ++ '$' :: Itoa (m + 1) ++
      (',' :: ' ' :: '?' :: ',' :: ' ' :: '?' :: ')' :: tail) =
      (pre ++ ['('] ++ '$' :: Itoa m ++ [',', ' '] ++ '$' :: Itoa (m + 1) ++ [',', ' ']) ++
        '?' :: (',' :: ' ' :: '?' :: ')' :: tail) := by simp
  rw [e3, loop_q_step _ _ _ _ h3]
  have h4 : '?' ∉ pre ++ ['('] ++ '$' :: Itoa m ++ [',', ' '] ++ '$' :: Itoa (m + 1) ++
      [',', ' '] ++ '$' :: Itoa (m + 1 + 1) ++ [',', ' '] := by simp [h, q_not_mem_itoa]
  have e4 : pre ++ ['('] ++ '$' :: Itoa m ++ [',', ' '] ++ '$' :: Itoa (m + 1) ++
      [',', ' '] ++ '$' :: Itoa (m + 1 + 1) ++ (',' :: ' ' :: '?' :: ')' :: tail) =
      (pre ++ ['('] ++ '$' :: Itoa m ++ [',', ' '] ++ '$' :: Itoa (m + 1) ++ [',', ' '] ++
        '$' :: Itoa (m + 1 + 1) ++ [',', ' ']) ++ '?' :: (')' :: tail) := by simp
  rw [e4, loop_q_step _ _ _ _ h4]
  congr 1
  simp [numGroup]

theorem loop_q_text (n : Nat) : ∀ (j : Nat) (pre suf : Str), '?' ∉ pre →
    ReplaceSQL.loop ['?'] (4 * n) (4 * j + 1) (pre ++ qText n ++ suf) =
      pre ++ numText j n ++ suf := by
  induction n with
  | zero => intro j pre suf _; simp [ReplaceSQL.loop, qText, numText]
  | succ n ih =>
    intro j pre suf h
    cases n with
    | zero =>
      simp only [qText, numText]
      rw [show 4 * (0 + 1) = 0 + 4 from rfl, loop_q_group _ _ _ _ h, valueGroup_eq]
      simp [ReplaceSQL.loop]
    | succ n =>
      simp only [qText, numText]
      have e : pre ++ (qGroup ++ ',' :: qText (n + 1)) ++ suf =
          pre ++ qGroup ++ (',' :: (qText (n + 1) ++ suf)) := by simp
      rw [e, show 4 * (n + 1 + 1) = 4 * (n + 1) + 4 from by ring, loop_q_group _ _ _ _ h]
      have h2 : '?' ∉ pre ++ numGroup (4 * j + 1) ++ [','] := by
        simp [h, q_not_mem_numGroup]
      have e2 : pre ++ numGroup (4 * j + 1) ++ (',' :: (qText (n + 1) ++ suf)) =
          (pre ++ numGroup (4 * j + 1) ++ [',']) ++ qText (n + 1) ++ suf := by simp
      rw [e2, show 4 * j + 1 + 4 = 4 * (j + 1) + 1 from by ring, ih (j + 1) _ suf h2,
        valueGroup_eq]
      simp

theorem count_q_qText (n : Nat) : (qText n).count '?' = 4 * n := by
  induction n with
  | zero => rfl
  | succ n ih =>
    cases n with
    | zero => decide
    | succ n =>
      simp only [qText, List.count_append, List.count_cons, ih]
      have : qGroup.count '?' = 4 := by decide
      simp [this]
      omega

theorem replaceSQL_qText (n : Nat) (pre suf : Str) (hp : '?' ∉ pre) (hs : '?' ∉ suf) :
    ReplaceSQL (pre ++ qText n ++ suf) ['?'] = pre ++ numText 0 n ++ suf := by
  have hc : Count (pre ++ qText n ++ suf) ['?'] = 4 * n := by
    rw [count_q]
    simp [List.count_append, count_q_qText, List.count_eq_zero_of_not_mem hp,
      List.count_eq_zero_of_not_mem hs]
  unfold ReplaceSQL
  rw [hc]
  exact loop_q_text n 0 pre suf hp

theorem loop_q_number (s : Str) : ∀ (pre : Str) (m : Nat), '?' ∉ pre →
    ReplaceSQL.loop ['?'] (s.count '?') m (pre ++ s) =
      pre ++ numberOccurrences ['?'] 0 m s := by
  induction s with
  | nil => intro pre m _; simp [ReplaceSQL.loop, numberOccurrences]
  | cons c t ih =>
    intro pre m hp
    by_cases hc : c = '?'
    · subst hc
      have hp2 : '?' ∉ pre ++ '$' :: Itoa m := by simp [hp, q_not_mem_itoa]
      have := ih (pre ++ '$' :: Itoa m) (m + 1) hp2
      simp only [List.count_cons_self, loop_q_step _ _ _ _ hp, numberOccurrences,
        List.isPrefixOf, beq_self_eq_true, Bool.and_self, if_true, List.length_singleton,
        Nat.sub_self]
      rw [this]
      simp
    · have hc2 : ¬ ('?' = c) := fun e => hc e.symm
      have hp2 : '?' ∉ pre ++ [c] := by simp [hp, hc2]
      have := ih (pre ++ [c]) m hp2
      have hb : (c == '?') = false := by simp [hc]
      simp only [List.count_cons, hb, Bool.false_eq_true, if_false, Nat.add_zero,
        numberOccurrences, List.isPrefixOf, beq_iff_eq, hc2, Bool.false_and]
      simpa [hc2] using this

theorem replaceSQL_question_mark (old : Str) :
    ReplaceSQL old ['?'] = numberOccurrences ['?'] 0 1 old := by
  unfold ReplaceSQL
  rw [count_q]
  exact loop_q_number old [] 1 (by simp)

theorem numText_eq_intercalate (n : Nat) : ∀ j : Nat,
    List.intercalate [','] ((List.range' j n).map valueGroup) = numText j n := by
  induction n with
  | zero => intro j; rfl
  | succ n ih =>
    intro j
    cases n with
    | zero => simp [List.range', List.intercalate, List.intersperse, numText]
    | succ n =>
      have := ih (j + 1)
      simp only [List.range', List.map, List.intercalate, List.intersperse,
        List.flatten] at this ⊢
      simp only [numText, this]
      simp

theorem valueGroups_eq (n : Nat) : valueGroups n = numText 0 n := by
  unfold valueGroups
  rw [List.range_eq_range', numText_eq_intercalate]

theorem qRows_succ (n : Nat) : qRows (n + 1) = qText (n + 1) ++ [','] := by
  induction n with
  | zero => rfl
  | succ n ih =>
    rw [qRows, ih]
    simp [qText, qGroup]

theorem trimSuffix_comma (x : Str) : TrimSuffix (x ++ [',']) [','] = x := by
  simp [TrimSuffix, List.isSuffixOf, List.isPrefixOf]

theorem buildSql_eq (head : Str) (n : Nat) (hh : '?' ∉ head) (hn : 1 ≤ n) :
    buildSql head n = batchShape head n := by
  obtain ⟨m, rfl⟩ : ∃ m, n = m + 1 := ⟨n - 1, by omega⟩
  unfold buildSql batchShape
  rw [qRows_succ, ← List.append_assoc, trimSuffix_comma, valueGroups_eq]
  exact replaceSQL_qText (m + 1) head _ hh (by decide)

theorem foldl_pages (Hash : URL → Str) (pages : List Page) : ∀ (a : Str) (v : List Str),
    pages.foldl
      (fun (acc : Str × List Str) page =>
        (acc.1 ++ "(?, ?, ?, ?),".toList,
         acc.2 ++ [Hash page.U, page.U.hostname, page.U.escapedPath, page.U.string]))
      (a, v) = (a ++ qRows pages.length, v ++ pages.flatMap (pageVals Hash)) := by
  induction pages with
  | nil => intro a v; simp [qRows]
  | cons p ps ih =>
    intro a v
    rw [List.foldl_cons, ih]
    simp [qRows, pageVals]

theorem foldl_links (Hash : URL → Str) (links : List Link) : ∀ (a : Str) (v : List Str),
    links.foldl
      (fun (acc : Str × List Str) link =>
        (acc.1 ++ "(?, ?, ?, ?),".toList,
         acc.2 ++ [Hash link.FromU, Hash link.ToU, link.LinkText, link.LinkType]))
      (a, v) = (a ++ qRows links.length, v ++ links.flatMap (linkVals Hash)) := by
  induction links with
  | nil => intro a v; simp [qRows]
  | cons p ps ih =>
    intro a v
    rw [List.foldl_cons, ih]
    simp [qRows, linkVals]

theorem batchPagesStmt_eq (Hash : URL → Str) (s : Storage) (pages : List Page) :
    batchPagesStmt Hash s pages =
      (buildSql (pagesHead s) pages.length, pages.flatMap (pageVals Hash)) := by
  simp only [batchPagesStmt, foldl_pages, buildSql, pagesHead, List.nil_append]

theorem batchLinksStmt_eq (Hash : URL → Str) (s : Storage) (links : List Link) :
    batchLinksStmt Hash s links =
      (buildSql (linksHead s) links.length, links.flatMap (linkVals Hash)) := by
  simp only [batchLinksStmt, foldl_links, buildSql, linksHead, List.nil_append]

theorem q_not_mem_pagesHead (s : Storage) (h : '?' ∉ s.PageTable) : '?' ∉ pagesHead s := by
  simp [pagesHead, h]

theorem q_not_mem_linksHead (s : Storage) (h : '?' ∉ s.LinkTable) : '?' ∉ linksHead s := by
  simp [linksHead, h]

theorem q_not_mem_numText (n : Nat) : ∀ j, '?' ∉ numText j n := by
  induction n with
  | zero => intro j; simp [numText]
  | succ n ih =>
    intro j
    cases n with
    | zero => simpa [numText, valueGroup_eq] using q_not_mem_numGroup _
    | succ n =>
      simp only [numText, valueGroup_eq, List.mem_append, List.mem_cons, not_or]
      exact ⟨q_not_mem_numGroup _, by decide, ih (j + 1)⟩

theorem q_not_mem_batchShape (head : Str) (n : Nat) (h : '?' ∉ head) :
    '?' ∉ batchShape head n := by
  simp only [batchShape, valueGroups_eq, List.mem_append, not_or]
  exact ⟨⟨h, q_not_mem_numText n 0⟩, by decide⟩

theorem numText_ends (n : Nat) : ∀ j, ∃ body, numText j (n + 1) = body ++ [')'] := by
  induction n with
  | zero => intro j; exact ⟨_, rfl⟩
  | succ n ih =>
    intro j
    obtain ⟨b, hb⟩ := ih (j + 1)
    exact ⟨valueGroup j ++ ',' :: b, by simp [numText, hb]⟩

theorem length_flatMap_pageVals (Hash : URL → Str) (pages : List Page) :
    (pages.flatMap (pageVals Hash)).length = 4 * pages.length := by
  induction pages with
  | nil => rfl
  | cons p ps ih => simp [List.flatMap_cons, pageVals, ih]; omega

theorem length_flatMap_linkVals (Hash : URL → Str) (links : List Link) :
    (links.flatMap (linkVals Hash)).length = 4 * links.length := by
  induction links with
  | nil => rfl
  | cons p ps ih => simp [List.flatMap_cons, linkVals, ih]; omega

/-! ## The single-record writers -/

theorem addPage_noFaults (Hash : URL → Str) (s : Storage) (u : URL) (w : World)
    (hf : w.NoFaults) :
    (AddPage Hash s u w).1 = none ∧ (AddPage Hash s u w).2.NoFaults ∧
    (AddPage Hash s u w).2.db =
      if pageExists w.db (Hash u) then w.db
      else { w.db with
        pages := w.db.pages ++ [⟨Hash u, u.hostname, u.escapedPath, u.string⟩] } := by
  have h0 := hf w.calls
  have h1 := hf (w.calls + 1)
  by_cases hp : pageExists w.db (Hash u) = true
  · simp [AddPage, CheckPageExists, queryRowPage, World.emit, World.nextFault, h0, hp]
    exact hf
  · simp [AddPage, CheckPageExists, queryRowPage, execInsertPage, insertPageRow, World.emit,
      World.nextFault, h0, h1, hp]
    exact hf

theorem filter_key_length (k : Str) (l : List PageRow)
    (hn : (l.map fun r => r.page_id).Nodup)
    (hk : l.any (fun r => r.page_id == k) = true) :
    (l.filter fun r => r.page_id = k).length = 1 := by
  induction l with
  | nil => simp at hk
  | cons r t ih =>
    rw [List.map_cons, List.nodup_cons] at hn
    by_cases hr : r.page_id = k
    · have ht : t.filter (fun r => decide (r.page_id = k)) = [] := by
        rw [List.filter_eq_nil_iff]
        intro x hx hxk
        exact hn.1 (List.mem_map.2 ⟨x, hx, by rw [hr]; exact of_decide_eq_true hxk⟩)
      simp [List.filter_cons, hr, ht]
    · have hk2 : t.any (fun r => r.page_id == k) = true := by
        simpa [List.any_cons, hr] using hk
      simp [List.filter_cons, hr, ih hn.2 hk2]

theorem pageKeysUnique_append (db : Tables) (row : PageRow) (hu : db.pageKeysUnique)
    (hp : pageExists db row.page_id = false) :
    Tables.pageKeysUnique { db with pages := db.pages ++ [row] } := by
  unfold Tables.pageKeysUnique at hu ⊢
  simp only [List.map_append, List.map_cons, List.map_nil]
  refine List.Nodup.append hu (List.nodup_singleton _) ?_
  intro k hk hk2
  rw [List.mem_singleton] at hk2
  subst hk2
  obtain ⟨r, hr, hrk⟩ := List.mem_map.1 hk
  have : pageExists db row.page_id = true := by
    simp only [pageExists, List.any_eq_true]
    exact ⟨r, hr, by simp [hrk]⟩
  rw [hp] at this
  exact Bool.noConfusion this

theorem pageExists_append (db : Tables) (row : PageRow) (k : Str) :
    pageExists { db with pages := db.pages ++ [row] } k =
      (pageExists db k || row.page_id == k) := by
  simp [pageExists, List.any_append]

/-- C1: in a run where no database call fails, on a page table that satisfies
its primary key, calling `AddPage(u)` twice returns nil both times, the second
call leaves the tables as the first call left them, and afterwards exactly one
page row has `page_id = Hash(u)`. -/
theorem addPage_idempotent (Hash : URL → Str) (s : Storage) (u : URL) (w : World)
    (hu : w.db.pageKeysUnique) (hf : w.NoFaults) :
    (AddPage Hash s u w).1 = none ∧
    (AddPage Hash s u (AddPage Hash s u w).2).1 = none ∧
    (AddPage Hash s u (AddPage Hash s u w).2).2.db = (AddPage Hash s u w).2.db ∧
    ((AddPage Hash s u (AddPage Hash s u w).2).2.db.pages.filter
      fun r => r.page_id = Hash u).length = 1 := by
  obtain ⟨e1, f1, d1⟩ := addPage_noFaults Hash s u w hf
  obtain ⟨e2, -, d2⟩ := addPage_noFaults Hash s u (AddPage Hash s u w).2 f1
  have hex : pageExists (AddPage Hash s u w).2.db (Hash u) = true := by
    rw [d1]
    by_cases hp : pageExists w.db (Hash u) = true
    · simp [hp]
    · simp [hp, pageExists_append]
  have huq : (AddPage Hash s u w).2.db.pageKeysUnique := by
    rw [d1]
    by_cases hp : pageExists w.db (Hash u) = true
    · simpa [hp] using hu
    · simp only [hp, if_false]
      exact pageKeysUnique_append w.db _ hu (by simpa using hp)
  rw [hex, if_pos rfl] at d2
  refine ⟨e1, e2, d2, ?_⟩
  rw [d2]
  exact filter_key_length _ _ huq hex

/-- C1 on the page table holding `http://b/`, for `http://a/`. -/
theorem addPage_idempotent_witness :
    (AddPage idHash demoStorage urlA worldB).1 = none ∧
    (AddPage idHash demoStorage urlA (AddPage idHash demoStorage urlA worldB).2).1 = none ∧
    (AddPage idHash demoStorage urlA (AddPage idHash demoStorage urlA worldB).2).2.db =
      (AddPage idHash demoStorage urlA worldB).2.db ∧
    ((AddPage idHash demoStorage urlA (AddPage idHash demoStorage urlA worldB).2).2.db.pages.filter
      fun r => r.page_id = idHash urlA).length = 1 :=
  addPage_idempotent idHash demoStorage urlA worldB (by decide) (fun _ => rfl)

theorem queryRowLink_noFaults (s : Storage) (f t : Str) (w : World) (hf : w.NoFaults) :
    ∃ w1, queryRowLink s f t w = ((linkExists w.db f t, none), w1) ∧ w1.NoFaults ∧
      w1.db = w.db := by
  have h0 := hf w.calls
  refine ⟨(queryRowLink s f t w).2, ?_, ?_, ?_⟩ <;>
    simp [queryRowLink, World.emit, World.nextFault, h0]
  exact hf

theorem execInsertLink_noFaults (s : Storage) (row : LinkRow) (w : World) (hf : w.NoFaults)
    (hl : linkExists w.db row.from_page_id row.to_page_id = false)
    (hp : pageExists w.db row.from_page_id = true) (hq : pageExists w.db row.to_page_id = true) :
    ∃ w1, execInsertLink s row w = (none, w1) ∧ w1.NoFaults ∧
      w1.db = { w.db with links := w.db.links ++ [row] } := by
  have h0 := hf w.calls
  refine ⟨(execInsertLink s row w).2, ?_, ?_, ?_⟩ <;>
    simp [execInsertLink, insertLinkRow, World.emit, World.nextFault, h0, hl, hp, hq]
  exact hf

theorem addPage_noFaults_exists (Hash : URL → Str) (s : Storage) (u : URL) (w : World)
    (hf : w.NoFaults) :
    (AddPage Hash s u w).2.NoFaults ∧ (AddPage Hash s u w).2.db.links = w.db.links ∧
    pageExists (AddPage Hash s u w).2.db (Hash u) = true ∧
    ∀ k, pageExists w.db k = true → pageExists (AddPage Hash s u w).2.db k = true := by
  obtain ⟨-, f1, d1⟩ := addPage_noFaults Hash s u w hf
  rw [d1]
  cases hp : pageExists w.db (Hash u)
  · simp only [Bool.false_eq_true, if_false]
    refine ⟨f1, trivial, by simp [pageExists], fun k hk => ?_⟩
    simp only [pageExists, List.any_append, Bool.or_eq_true]
    exact Or.inl hk
  · simp [f1, hp]

theorem addLink_noFaults_new (Hash : URL → Str) (s : Storage) (a b : URL) (t y : Str)
    (w : World) (hf : w.NoFaults) (hno : linkExists w.db (Hash a) (Hash b) = false) :
    (AddLink Hash s a b t y w).1 = none ∧ (AddLink Hash s a b t y w).2.NoFaults ∧
    (AddLink Hash s a b t y w).2.db.links = w.db.links ++ [⟨Hash a, Hash b, t, y⟩] := by
  obtain ⟨w1, hq, hf1, hd1⟩ :=
    queryRowLink_noFaults s (Hash a) (Hash b) (w.emit .linkLock) hf
  have hno1 : linkExists (w.emit .linkLock).db (Hash a) (Hash b) = false := hno
  rw [hno1] at hq
  obtain ⟨hf2, hl2, ha2, -⟩ := addPage_noFaults_exists Hash s a w1 hf1
  obtain ⟨hf3, hl3, hb3, hm3⟩ := addPage_noFaults_exists Hash s b (AddPage Hash s a w1).2 hf2
  have hl : linkExists (AddPage Hash s b (AddPage Hash s a w1).2).2.db (Hash a) (Hash b)
      = false := by
    have : (AddPage Hash s b (AddPage Hash s a w1).2).2.db.links = w.db.links := by
      rw [hl3, hl2, hd1]; rfl
    simpa [linkExists, this] using hno
  obtain ⟨w4, he, hf4, hd4⟩ := execInsertLink_noFaults s ⟨Hash a, Hash b, t, y⟩
    (AddPage Hash s b (AddPage Hash s a w1).2).2 hf3 hl (hm3 _ ha2) hb3
  have hres : AddLink Hash s a b t y w = (none, w4.emit .linkUnlock) := by
    simp only [AddLink, CheckLinkExists, hq, he]
  rw [hres]
  refine ⟨rfl, hf4, ?_⟩
  show w4.db.links = _
  rw [hd4]
  show _ ++ _ = _
  rw [hl3, hl2, hd1]
  rfl

theorem addLink_noFaults_existing (Hash : URL → Str) (s : Storage) (a b : URL) (t y : Str)
    (w : World) (hf : w.NoFaults) (hex : linkExists w.db (Hash a) (Hash b) = true) :
    (AddLink Hash s a b t y w).1 = none ∧ (AddLink Hash s a b t y w).2.db = w.db := by
  have h0 := hf w.calls
  simp [AddLink, CheckLinkExists, queryRowLink, World.emit, World.nextFault, h0, hex]

/-- C2: in a run where no database call fails, from tables with no link row
for `(Hash(a), Hash(b))`, `AddLink(a, b, t1, y1)` followed by
`AddLink(a, b, t2, y2)` returns nil twice, the second call leaves the tables
as they were, and afterwards the link rows for `(Hash(a), Hash(b))` are
exactly the one row with the text `t1` and the type `y1` of the first call. -/
theorem addLink_twice (Hash : URL → Str) (s : Storage) (a b : URL) (t1 y1 t2 y2 : Str)
    (w : World) (hf : w.NoFaults) (hno : linkExists w.db (Hash a) (Hash b) = false) :
    (AddLink Hash s a b t1 y1 w).1 = none ∧
    (AddLink Hash s a b t2 y2 (AddLink Hash s a b t1 y1 w).2).1 = none ∧
    (AddLink Hash s a b t2 y2 (AddLink Hash s a b t1 y1 w).2).2.db =
      (AddLink Hash s a b t1 y1 w).2.db ∧
    (AddLink Hash s a b t2 y2 (AddLink Hash s a b t1 y1 w).2).2.db.links.filter
      (fun r => r.from_page_id = Hash a ∧ r.to_page_id = Hash b) =
      [⟨Hash a, Hash b, t1, y1⟩] := by
  obtain ⟨e1, f1, l1⟩ := addLink_noFaults_new Hash s a b t1 y1 w hf hno
  have hex : linkExists (AddLink Hash s a b t1 y1 w).2.db (Hash a) (Hash b) = true := by
    simp [linkExists, l1]
  obtain ⟨e2, d2⟩ := addLink_noFaults_existing Hash s a b t2 y2 _ f1 hex
  refine ⟨e1, e2, d2, ?_⟩
  rw [d2, l1, List.filter_append]
  have hnone : w.db.links.filter
      (fun r => decide (r.from_page_id = Hash a ∧ r.to_page_id = Hash b)) = [] := by
    rw [List.filter_eq_nil_iff]
    intro r hr hk
    have hk2 := of_decide_eq_true hk
    have : linkExists w.db (Hash a) (Hash b) = true := by
      simp only [linkExists, List.any_eq_true]
      exact ⟨r, hr, by simp [hk2.1, hk2.2]⟩
    rw [hno] at this
    exact Bool.noConfusion this
  rw [hnone]
  simp

/-- C2 on the page table holding `http://b/`: the link keeps the text
`click here` of the first call. -/
theorem addLink_twice_witness :
    worldB.NoFaults ∧ linkExists worldB.db (idHash urlA) (idHash urlB) = false ∧
    (AddLink idHash demoStorage urlA urlB "next".toList "nav".toList
      (AddLink idHash demoStorage urlA urlB "click here".toList "nav".toList worldB).2).2.db.links.filter
      (fun r => r.from_page_id = idHash urlA ∧ r.to_page_id = idHash urlB) =
      [⟨idHash urlA, idHash urlB, "click here".toList, "nav".toList⟩] :=
  ⟨fun _ => rfl, by decide,
    (addLink_twice idHash demoStorage urlA urlB "click here".toList "nav".toList "next".toList
      "nav".toList worldB (fun _ => rfl) (by decide)).2.2.2⟩

theorem addLink_of_check (Hash : URL → Str) (s : Storage) (a b : URL) (t y : Str) (w w1 : World)
    (hq : queryRowLink s (Hash a) (Hash b) (w.emit .linkLock) = ((false, none), w1)) :
    AddLink Hash s a b t y w =
      ((execInsertLink s ⟨Hash a, Hash b, t, y⟩
          (AddPage Hash s b (AddPage Hash s a w1).2).2).1,
       (execInsertLink s ⟨Hash a, Hash b, t, y⟩
          (AddPage Hash s b (AddPage Hash s a w1).2).2).2.emit .linkUnlock) := by
  simp only [AddLink, CheckLinkExists, hq]

theorem execInsertLink_ok (s : Storage) (row : LinkRow) (w : World)
    (h : (execInsertLink s row w).1 = none) :
    pageExists (execInsertLink s row w).2.db row.from_page_id = true ∧
    pageExists (execInsertLink s row w).2.db row.to_page_id = true := by
  unfold execInsertLink at h ⊢
  simp only [World.nextFault, World.emit, insertLinkRow] at h ⊢
  cases hc : w.faults w.calls with
  | some e => simp [hc] at h
  | none =>
    cases hl : linkExists w.db row.from_page_id row.to_page_id with
    | true => simp [hc, hl] at h
    | false =>
      cases hp : pageExists w.db row.from_page_id with
      | false => simp [hc, hl, hp] at h
      | true =>
        cases hq : pageExists w.db row.to_page_id with
        | false => simp [hc, hl, hp, hq] at h
        | true =>
          simp only [hc, hl, hp, hq, Bool.false_eq_true, if_false, Bool.and_self, if_true]
          exact ⟨hp, hq⟩

theorem pageExists_of_linkExists (db : Tables) (f t : Str) (hv : db.foreignKeys)
    (h : linkExists db f t = true) : pageExists db f = true ∧ pageExists db t = true := by
  simp only [linkExists, List.any_eq_true, Bool.and_eq_true, beq_iff_eq] at h
  obtain ⟨r, hr, rfl, rfl⟩ := h
  exact hv r hr

/-- C3: on tables that satisfy the constraints of the schema, whatever the
transport does to the database calls, if `AddLink(a, b, text, type)` returns
nil then afterwards the page table holds a row with `page_id = Hash(a)` and a
row with `page_id = Hash(b)`; this covers the path where the link existed and
the paths where an inner `AddPage` returned an error that `AddLink` dropped. -/
theorem addLink_referential_integrity (Hash : URL → Str) (s : Storage) (a b : URL)
    (text type : Str) (w : World) (hv : w.db.Valid)
    (h : (AddLink Hash s a b text type w).1 = none) :
    pageExists (AddLink Hash s a b text type w).2.db (Hash a) = true ∧
    pageExists (AddLink Hash s a b text type w).2.db (Hash b) = true := by
  cases hc : w.faults w.calls with
  | some e =>
    simp [AddLink, CheckLinkExists, queryRowLink, World.emit, World.nextFault, hc] at h
  | none =>
    cases hl : linkExists w.db (Hash a) (Hash b) with
    | true =>
      have hd : (AddLink Hash s a b text type w).2.db = w.db := by
        simp [AddLink, CheckLinkExists, queryRowLink, World.emit, World.nextFault, hc, hl]
      rw [hd]
      exact pageExists_of_linkExists _ _ _ hv.2.2 hl
    | false =>
      have hq : queryRowLink s (Hash a) (Hash b) (w.emit .linkLock) =
          ((false, none), (queryRowLink s (Hash a) (Hash b) (w.emit .linkLock)).2) := by
        simp [queryRowLink, World.emit, World.nextFault, hc, hl]
      rw [addLink_of_check Hash s a b text type w _ hq] at h ⊢
      exact execInsertLink_ok s ⟨Hash a, Hash b, text, type⟩ _ h

/-- C5: when the transport fails the existence query with `e`,
`CheckPageExists` and `CheckLinkExists` return `e` (and `false`); `AddPage`
returns `e`, leaves the tables alone and its only events are the read lock,
the query and the read unlock; `AddLink` returns `e`, leaves the tables alone
and its only events are the link lock, the query and the link unlock. -/
theorem existence_check_failure (Hash : URL → Str) (s : Storage) (u a b : URL) (t y : Str)
    (w : World) (e : DbError) (hfail : w.faults w.calls = some e) :
    (CheckPageExists Hash s u w).1 = (false, some e) ∧
    (CheckLinkExists Hash s a b w).1 = (false, some e) ∧
    (AddPage Hash s u w).1 = some e ∧
    (AddPage Hash s u w).2.db = w.db ∧
    (AddPage Hash s u w).2.trace =
      w.trace ++ [.pageRLock, .queryPageExists s.PageTable (Hash u), .pageRUnlock] ∧
    (AddLink Hash s a b t y w).1 = some e ∧
    (AddLink Hash s a b t y w).2.db = w.db ∧
    (AddLink Hash s a b t y w).2.trace =
      w.trace ++ [.linkLock, .queryLinkExists s.LinkTable (Hash a) (Hash b), .linkUnlock] := by
  simp [CheckPageExists, CheckLinkExists, AddPage, AddLink, queryRowPage, queryRowLink,
    World.emit, World.nextFault, hfail]

/-- C3 on a run where the existence check of the first inner `AddPage` fails
in the transport and `AddLink` drops the error. -/
theorem addLink_referential_integrity_witness :
    worldSecondFails.db.Valid ∧
    (AddPage idHash demoStorage urlA
      (CheckLinkExists idHash demoStorage urlA urlB worldSecondFails).2).1 =
        some (.transport 7) ∧
    (AddLink idHash demoStorage urlA urlB [] [] worldSecondFails).1 = none ∧
    pageExists (AddLink idHash demoStorage urlA urlB [] [] worldSecondFails).2.db
      (idHash urlA) = true ∧
    pageExists (AddLink idHash demoStorage urlA urlB [] [] worldSecondFails).2.db
      (idHash urlB) = true :=
  ⟨by decide, by decide, by decide,
    addLink_referential_integrity idHash demoStorage urlA urlB [] [] worldSecondFails
      (by decide) (by decide)⟩

/-- C5 on a run whose first database call fails in the transport. -/
theorem existence_check_failure_witness :
    worldFirstFails.faults worldFirstFails.calls = some (.transport 7) ∧
    (AddPage idHash demoStorage urlA worldFirstFails).1 = some (.transport 7) ∧
    (AddPage idHash demoStorage urlA worldFirstFails).2.db = worldFirstFails.db :=
  ⟨rfl,
    (existence_check_failure idHash demoStorage urlA urlA urlB [] [] worldFirstFails
      (.transport 7) rfl).2.2.1,
    (existence_check_failure idHash demoStorage urlA urlA urlB [] [] worldFirstFails
      (.transport 7) rfl).2.2.2.1⟩

/-! ## Lock events of `AddLink` -/

theorem addPage_trace (Hash : URL → Str) (s : Storage) (u : URL) (w : World) :
    (AddPage Hash s u w).2.trace =
      w.trace ++ [.pageRLock, .queryPageExists s.PageTable (Hash u), .pageRUnlock] ∨
    (AddPage Hash s u w).2.trace =
      w.trace ++ [.pageRLock, .queryPageExists s.PageTable (Hash u), .pageRUnlock,
        .pageLock, .insertPage s.PageTable ⟨Hash u, u.hostname, u.escapedPath, u.string⟩,
        .pageUnlock] := by
  cases hc : w.faults w.calls with
  | some e =>
    left
    simp [AddPage, CheckPageExists, queryRowPage, World.emit, World.nextFault, hc]
  | none =>
    cases hp : pageExists w.db (Hash u) with
    | true =>
      left
      simp [AddPage, CheckPageExists, queryRowPage, World.emit, World.nextFault, hc, hp]
    | false =>
      right
      cases hc1 : w.faults (w.calls + 1) with
      | some e =>
        simp [AddPage, CheckPageExists, queryRowPage, execInsertPage, World.emit,
          World.nextFault, hc, hp, hc1]
      | none =>
        simp [AddPage, CheckPageExists, queryRowPage, execInsertPage, insertPageRow,
          World.emit, World.nextFault, hc, hp, hc1]

theorem execInsertLink_trace (s : Storage) (row : LinkRow) (w : World) :
    (execInsertLink s row w).2.trace = w.trace ++ [.insertLink s.LinkTable row] := by
  unfold execInsertLink
  simp only [World.nextFault, World.emit]
  cases w.faults w.calls with
  | some e => rfl
  | none =>
    simp only []
    cases insertLinkRow w.db row <;> rfl

theorem addPage_events (Hash : URL → Str) (s : Storage) (u : URL) (w : World) :
    ∃ evs, (AddPage Hash s u w).2.trace = w.trace ++ evs ∧
      (evs = addPageShort Hash s u ∨ evs = addPageLong Hash s u) := by
  rcases addPage_trace Hash s u w with h | h
  · exact ⟨_, h, Or.inl rfl⟩
  · exact ⟨_, h, Or.inr rfl⟩

theorem addLink_events (Hash : URL → Str) (s : Storage) (a b : URL) (t y : Str) (w : World) :
    ((CheckLinkExists Hash s a b (w.emit .linkLock)).1 ≠ (false, none) ∧
      eventsOf w (AddLink Hash s a b t y w).2 =
        [.linkLock, .queryLinkExists s.LinkTable (Hash a) (Hash b), .linkUnlock]) ∨
    ((CheckLinkExists Hash s a b (w.emit .linkLock)).1 = (false, none) ∧
      ∃ ea eb, (ea = addPageShort Hash s a ∨ ea = addPageLong Hash s a) ∧
        (eb = addPageShort Hash s b ∨ eb = addPageLong Hash s b) ∧
        eventsOf w (AddLink Hash s a b t y w).2 =
          [.linkLock, .queryLinkExists s.LinkTable (Hash a) (Hash b)] ++ ea ++ eb ++
            [.insertLink s.LinkTable ⟨Hash a, Hash b, t, y⟩, .linkUnlock]) := by
  cases hc : w.faults w.calls with
  | some e =>
    left
    simp [AddLink, CheckLinkExists, queryRowLink, World.emit, World.nextFault, hc, eventsOf]
  | none =>
    cases hl : linkExists w.db (Hash a) (Hash b) with
    | true =>
      left
      simp [AddLink, CheckLinkExists, queryRowLink, World.emit, World.nextFault, hc, hl,
        eventsOf]
    | false =>
      right
      have hq : queryRowLink s (Hash a) (Hash b) (w.emit .linkLock) =
          ((false, none), (queryRowLink s (Hash a) (Hash b) (w.emit .linkLock)).2) := by
        simp [queryRowLink, World.emit, World.nextFault, hc, hl]
      have ht1 : (queryRowLink s (Hash a) (Hash b) (w.emit .linkLock)).2.trace =
          w.trace ++ [.linkLock, .queryLinkExists s.LinkTable (Hash a) (Hash b)] := by
        simp [queryRowLink, World.emit, World.nextFault, hc, hl]
      obtain ⟨ea, hea, ha⟩ := addPage_events Hash s a
        (queryRowLink s (Hash a) (Hash b) (w.emit .linkLock)).2
      obtain ⟨eb, heb, hb⟩ := addPage_events Hash s b
        (AddPage Hash s a (queryRowLink s (Hash a) (Hash b) (w.emit .linkLock)).2).2
      refine ⟨by rw [CheckLinkExists, hq], ea, eb, ha, hb, ?_⟩
      rw [addLink_of_check Hash s a b t y w _ hq]
      show List.drop _ ((execInsertLink s _ _).2.trace ++ [Event.linkUnlock]) = _
      rw [execInsertLink_trace, heb, hea, ht1]
      simp [List.append_assoc]

/-- C8, as the code has it: in the events of any call of `AddLink`, the page
lock is acquired while the link lock is held exactly when the link-existence
check succeeds and finds no link (the two inner `AddPage` calls take it);
the locks are properly nested all the same: the link lock is taken first and
released last, the page lock is taken only when free and released before the
next lock operation, and the link lock is never acquired while the page lock
is held. -/
theorem addLink_lock_nesting (Hash : URL → Str) (s : Storage) (a b : URL) (t y : Str)
    (w : World) :
    lockDiscipline false .free (eventsOf w (AddLink Hash s a b t y w).2) = true ∧
    (pageAcquiredUnderLink false (eventsOf w (AddLink Hash s a b t y w).2) = true ↔
      (CheckLinkExists Hash s a b (w.emit .linkLock)).1 = (false, none)) ∧
    (eventsOf w (AddLink Hash s a b t y w).2).head? = some .linkLock ∧
    (eventsOf w (AddLink Hash s a b t y w).2).getLast? = some .linkUnlock := by
  rcases addLink_events Hash s a b t y w with ⟨hne, he⟩ | ⟨hq, ea, eb, ha, hb, he⟩
  · rw [he]
    simp [lockDiscipline, pageAcquiredUnderLink, hne]
  · rw [he]
    rcases ha with rfl | rfl <;> rcases hb with rfl | rfl <;>
      simp [lockDiscipline, pageAcquiredUnderLink, addPageShort, addPageLong, hq]

/-- C8 fails as stated: in `AddLink(http://a/, http://b/)` on empty tables
the page lock is acquired while the link lock is held. -/
theorem addLink_acquires_page_lock_under_link_lock :
    (AddLink idHash demoStorage urlA urlB [] [] emptyWorld).2.trace =
      [.linkLock, .queryLinkExists demoStorage.LinkTable (idHash urlA) (idHash urlB),
        .pageRLock, .queryPageExists demoStorage.PageTable (idHash urlA), .pageRUnlock,
        .pageLock, .insertPage demoStorage.PageTable (pageRowOf idHash urlA), .pageUnlock,
        .pageRLock, .queryPageExists demoStorage.PageTable (idHash urlB), .pageRUnlock,
        .pageLock, .insertPage demoStorage.PageTable (pageRowOf idHash urlB), .pageUnlock,
        .insertLink demoStorage.LinkTable ⟨idHash urlA, idHash urlB, [], []⟩,
        .linkUnlock] ∧
    pageAcquiredUnderLink false
      (eventsOf emptyWorld (AddLink idHash demoStorage urlA urlB [] [] emptyWorld).2) =
      true := by
  decide

/-! ## The batch writers -/

theorem count_dollar_numGroup (m : Nat) : (numGroup m).count '$' = 4 := by
  simp [numGroup, List.count_append, List.count_cons,
    List.count_eq_zero_of_not_mem (dollar_not_mem_itoa _)]

theorem count_dollar_numText (n : Nat) : ∀ j, (numText j n).count '$' = 4 * n := by
  induction n with
  | zero => intro j; rfl
  | succ n ih =>
    intro j
    cases n with
    | zero => simpa [numText, valueGroup_eq] using count_dollar_numGroup _
    | succ n =>
      simp only [numText, valueGroup_eq, List.count_append, List.count_cons,
        count_dollar_numGroup, ih (j + 1)]
      simp
      omega

theorem isBatchInsert_batchShape (head : Str) (n : Nat) (hn : 1 ≤ n) :
    isBatchInsert head (batchShape head n) = true := by
  have hc : ((batchShape head n).drop head.length).count '$' = 4 * n := by
    have : batchShape head n = head ++ (valueGroups n ++ onConflictClause) := by
      simp [batchShape]
    rw [this, List.drop_left, List.count_append, valueGroups_eq, count_dollar_numText]
    have : onConflictClause.count '$' = 0 := by decide
    omega
  simp only [isBatchInsert, hc]
  have : 4 * n / 4 = n := by omega
  simp [this, hn]

theorem isBatchInsert_elim (head sql : Str) (h : isBatchInsert head sql = true) :
    ∃ n, sql = batchShape head (n + 1) := by
  simp only [isBatchInsert, Bool.and_eq_true, decide_eq_true_eq, beq_iff_eq] at h
  obtain ⟨h1, h2⟩ := h
  refine ⟨(sql.drop head.length).count '$' / 4 - 1, ?_⟩
  rw [Nat.sub_add_cancel h1]
  exact h2

theorem not_isBatchInsert_no_rows (head x : Str) :
    isBatchInsert head (x ++ ' ' :: onConflictClause) = false := by
  cases h : isBatchInsert head (x ++ ' ' :: onConflictClause) with
  | false => rfl
  | true =>
    exfalso
    obtain ⟨n, hn⟩ := isBatchInsert_elim _ _ h
    obtain ⟨body, hb⟩ := numText_ends n 0
    rw [batchShape, valueGroups_eq, hb] at hn
    have e1 : x ++ ' ' :: onConflictClause = (x ++ [' ']) ++ onConflictClause := by simp
    have e2 : head ++ (body ++ [')']) ++ onConflictClause =
        (head ++ body ++ [')']) ++ onConflictClause := by simp
    rw [e1, e2] at hn
    have h3 := List.append_cancel_right hn
    have h4 := congrArg List.getLast? h3
    simp at h4

theorem rowsOf_pageVals (Hash : URL → Str) (pages : List Page) :
    (rowsOf (pages.flatMap (pageVals Hash))).map
      (fun r => (⟨r.1, r.2.1, r.2.2.1, r.2.2.2⟩ : PageRow)) =
      pages.map fun p => pageRowOf Hash p.U := by
  induction pages with
  | nil => rfl
  | cons p ps ih =>
    have e : (p :: ps).flatMap (pageVals Hash) =
        Hash p.U :: p.U.hostname :: p.U.escapedPath :: p.U.string ::
          ps.flatMap (pageVals Hash) := by
      simp [List.flatMap_cons, pageVals]
    rw [e, rowsOf, List.map_cons, ih]
    rfl

theorem insertPagesSkip_links (rows : List PageRow) : ∀ db : Tables,
    (insertPagesSkip db rows).links = db.links := by
  induction rows with
  | nil => intro db; rfl
  | cons r rs ih =>
    intro db
    rw [insertPagesSkip, ih]
    split <;> rfl

theorem insertPagesSkip_keeps (rows : List PageRow) : ∀ db : Tables,
    ∃ added, (insertPagesSkip db rows).pages = db.pages ++ added := by
  induction rows with
  | nil => intro db; exact ⟨[], by simp [insertPagesSkip]⟩
  | cons r rs ih =>
    intro db
    rw [insertPagesSkip]
    split
    · exact ih db
    · obtain ⟨added, h⟩ := ih { db with pages := db.pages ++ [r] }
      exact ⟨r :: added, by rw [h]; simp⟩

theorem insertPagesSkip_unique (rows : List PageRow) : ∀ db : Tables, db.pageKeysUnique →
    (insertPagesSkip db rows).pageKeysUnique := by
  induction rows with
  | nil => intro db h; exact h
  | cons r rs ih =>
    intro db h
    rw [insertPagesSkip]
    split
    · exact ih db h
    · rename_i hp
      exact ih _ (pageKeysUnique_append db r h (by simpa using hp))

theorem insertPagesSkip_mono (rows : List PageRow) (k : Str) : ∀ db : Tables,
    pageExists db k = true → pageExists (insertPagesSkip db rows) k = true := by
  induction rows with
  | nil => intro db h; exact h
  | cons r rs ih =>
    intro db h
    rw [insertPagesSkip]
    split
    · exact ih db h
    · apply ih
      simp only [pageExists, List.any_append, Bool.or_eq_true]
      exact Or.inl h

theorem insertPagesSkip_exists (rows : List PageRow) : ∀ db : Tables, ∀ r ∈ rows,
    pageExists (insertPagesSkip db rows) r.page_id = true := by
  induction rows with
  | nil => intro db r hr; cases hr
  | cons r0 rs ih =>
    intro db r hr
    rw [insertPagesSkip]
    rcases List.mem_cons.1 hr with rfl | hr
    · apply insertPagesSkip_mono
      split
      · assumption
      · simp [pageExists]
    · exact ih _ r hr

theorem prepareAndExec_no_rows (s : Storage) (x : Str) (vals : List Str) (w : World) :
    (prepareAndExec s (x ++ ' ' :: onConflictClause) vals w).1 = .panicked ∧
    (prepareAndExec s (x ++ ' ' :: onConflictClause) vals w).2.db = w.db ∧
    (prepareAndExec s (x ++ ' ' :: onConflictClause) vals w).2.trace =
      w.trace ++ [.prepare (x ++ ' ' :: onConflictClause)] := by
  have h1 := not_isBatchInsert_no_rows (pagesHead s) x
  have h2 := not_isBatchInsert_no_rows (linksHead s) x
  cases hc : w.faults w.calls <;>
    simp [prepareAndExec, dbPrepare, serverPrepare, World.emit, World.nextFault, hc, h1, h2]

theorem buildSql_zero (x : Str) (hx : '?' ∉ x) :
    buildSql (x ++ [' ']) 0 = x ++ ' ' :: onConflictClause := by
  have ht : TrimSuffix (x ++ [' '] ++ qRows 0) [','] = x ++ [' '] := by
    simp [TrimSuffix, List.isSuffixOf, List.isPrefixOf, qRows]
  unfold buildSql
  rw [ht]
  have hq : '?' ∉ x ++ [' '] := by simp [hx]
  have := replaceSQL_qText 0 (x ++ [' ']) onConflictClause hq (by decide)
  simp only [qText, numText, List.append_nil] at this
  rw [show (" ON CONFLICT DO NOTHING".toList) = onConflictClause from rfl, this]
  simp

theorem pagesHead_eq (s : Storage) :
    pagesHead s =
      ("INSERT INTO ".toList ++ s.PageTable ++ " (page_id, host, path, url) VALUES".toList) ++
        [' '] := by
  simp [pagesHead]

theorem linksHead_eq (s : Storage) :
    linksHead s =
      ("INSERT INTO ".toList ++ s.LinkTable ++
        " (from_page_id, to_page_id, text, type) VALUES".toList) ++ [' '] := by
  simp [linksHead]

/-- C4 fails on the code: for table names without `?`, in every world,
`BatchAddPages` and `BatchAddLinks` applied to an empty list build an `INSERT`
whose `VALUES` clause has no value rows (the prefix followed at once by the
conflict clause), send it to `Prepare`, and panic on the nil statement instead
of returning. -/
theorem batch_empty_list (Hash : URL → Str) (s : Storage) (w : World)
    (hp : '?' ∉ s.PageTable) (hl : '?' ∉ s.LinkTable) :
    ((batchPagesStmt Hash s []).1 = pagesHead s ++ onConflictClause ∧
      (BatchAddPages Hash s [] w).1 = .panicked ∧
      (BatchAddPages Hash s [] w).2.trace =
        w.trace ++ [.prepare (pagesHead s ++ onConflictClause)]) ∧
    ((batchLinksStmt Hash s []).1 = linksHead s ++ onConflictClause ∧
      (BatchAddLinks Hash s [] w).1 = .panicked ∧
      (BatchAddLinks Hash s [] w).2.trace =
        w.trace ++ [.prepare (linksHead s ++ onConflictClause)]) := by
  have hp2 : '?' ∉ "INSERT INTO ".toList ++ s.PageTable ++
      " (page_id, host, path, url) VALUES".toList := by simp [hp]
  have hl2 : '?' ∉ "INSERT INTO ".toList ++ s.LinkTable ++
      " (from_page_id, to_page_id, text, type) VALUES".toList := by simp [hl]
  have e1 : (batchPagesStmt Hash s []) = (pagesHead s ++ onConflictClause, []) := by
    rw [batchPagesStmt_eq, pagesHead_eq]
    simp only [List.length_nil, buildSql_zero _ hp2]
    simp
  have e2 : (batchLinksStmt Hash s []) = (linksHead s ++ onConflictClause, []) := by
    rw [batchLinksStmt_eq, linksHead_eq]
    simp only [List.length_nil, buildSql_zero _ hl2]
    simp
  have p1 := prepareAndExec_no_rows s ("INSERT INTO ".toList ++ s.PageTable ++
      " (page_id, host, path, url) VALUES".toList) [] w
  have p2 := prepareAndExec_no_rows s ("INSERT INTO ".toList ++ s.LinkTable ++
      " (from_page_id, to_page_id, text, type) VALUES".toList) [] w
  have f1 : pagesHead s ++ onConflictClause = ("INSERT INTO ".toList ++ s.PageTable ++
      " (page_id, host, path, url) VALUES".toList) ++ ' ' :: onConflictClause := by
    rw [pagesHead_eq]; simp
  have f2 : linksHead s ++ onConflictClause = ("INSERT INTO ".toList ++ s.LinkTable ++
      " (from_page_id, to_page_id, text, type) VALUES".toList) ++ ' ' :: onConflictClause := by
    rw [linksHead_eq]; simp
  refine ⟨⟨by rw [e1], ?_, ?_⟩, ⟨by rw [e2], ?_, ?_⟩⟩
  · simp only [BatchAddPages, e1, f1]; exact p1.1
  · simp only [BatchAddPages, e1, f1]; exact p1.2.2
  · simp only [BatchAddLinks, e2, f2]; exact p2.1
  · simp only [BatchAddLinks, e2, f2]; exact p2.2.2

/-- C4 on the tables `pages` and `links`. -/
theorem batch_empty_list_witness :
    (batchPagesStmt idHash demoStorage []).1 =
      "INSERT INTO pages (page_id, host, path, url) VALUES  ON CONFLICT DO NOTHING".toList ∧
    (BatchAddPages idHash demoStorage [] emptyWorld).1 = .panicked ∧
    (BatchAddLinks idHash demoStorage [] emptyWorld).1 = .panicked :=
  ⟨(batch_empty_list idHash demoStorage emptyWorld (by decide) (by decide)).1.1,
    (batch_empty_list idHash demoStorage emptyWorld (by decide) (by decide)).1.2.1,
    (batch_empty_list idHash demoStorage emptyWorld (by decide) (by decide)).2.2.1⟩

theorem batchAddPages_run (Hash : URL → Str) (s : Storage) (pages : List Page) (w : World)
    (hq : '?' ∉ s.PageTable) (hne : pages ≠ []) (hf : w.NoFaults) :
    (BatchAddPages Hash s pages w).1 = .returned none ∧
    (BatchAddPages Hash s pages w).2.db =
      insertPagesSkip w.db (pages.map fun p => pageRowOf Hash p.U) ∧
    (BatchAddPages Hash s pages w).2.trace =
      w.trace ++ [.prepare (batchPagesStmt Hash s pages).1,
        .stmtExec (batchPagesStmt Hash s pages).1 (batchPagesStmt Hash s pages).2] := by
  have hn : 1 ≤ pages.length := by
    cases pages with
    | nil => exact absurd rfl hne
    | cons p ps => simp
  have h0 := hf w.calls
  have h1 := hf (w.calls + 1)
  have hsql := buildSql_eq (pagesHead s) pages.length (q_not_mem_pagesHead s hq) hn
  have hpre := isBatchInsert_batchShape (pagesHead s) pages.length hn
  have hlen := length_flatMap_pageVals Hash pages
  have hdiv : 4 * pages.length / 4 = pages.length := by omega
  have hrows := rowsOf_pageVals Hash pages
  simp only [BatchAddPages, batchPagesStmt_eq, hsql, prepareAndExec, dbPrepare, serverPrepare,
    hpre, World.emit, World.nextFault, h0, if_true, stmtExec, h1, serverExec, hlen, hdiv,
    Nat.mul_mod_right, true_and, hrows]
  simp

/-- C6, as the code has it: when the name of the page table contains no `?`,
no database call fails in the transport and the page table satisfies its
primary key, `BatchAddPages` on a non-empty list (whatever mix of persisted,
new and repeated pages) returns nil, the statement it prepares ends in the
skip-on-conflict clause, every row that was in the page table is still there
in place, the link table is untouched, the primary key still holds and
exactly one row has the key `Hash(page.U)` of each page of the list. -/
theorem batchAddPages_no_throw (Hash : URL → Str) (s : Storage) (pages : List Page)
    (w : World) (hq : '?' ∉ s.PageTable) (hne : pages ≠ []) (hf : w.NoFaults)
    (hu : w.db.pageKeysUnique) :
    (BatchAddPages Hash s pages w).1 = .returned none ∧
    Event.prepare (batchPagesStmt Hash s pages).1 ∈ (BatchAddPages Hash s pages w).2.trace ∧
    (∃ body, (batchPagesStmt Hash s pages).1 = body ++ onConflictClause) ∧
    (∃ added, (BatchAddPages Hash s pages w).2.db.pages = w.db.pages ++ added) ∧
    (BatchAddPages Hash s pages w).2.db.links = w.db.links ∧
    (BatchAddPages Hash s pages w).2.db.pageKeysUnique ∧
    ∀ p ∈ pages,
      ((BatchAddPages Hash s pages w).2.db.pages.filter
        fun r => r.page_id = Hash p.U).length = 1 := by
  obtain ⟨hr, hd, ht⟩ := batchAddPages_run Hash s pages w hq hne hf
  have hn : 1 ≤ pages.length := by
    cases pages with
    | nil => exact absurd rfl hne
    | cons p ps => simp
  have huq := insertPagesSkip_unique (pages.map fun p => pageRowOf Hash p.U) w.db hu
  refine ⟨hr, by rw [ht]; simp, ⟨pagesHead s ++ valueGroups pages.length, ?_⟩, ?_, ?_, ?_, ?_⟩
  · rw [batchPagesStmt_eq]
    exact buildSql_eq (pagesHead s) pages.length (q_not_mem_pagesHead s hq) hn
  · rw [hd]; exact insertPagesSkip_keeps _ _
  · rw [hd]; exact insertPagesSkip_links _ _
  · rw [hd]; exact huq
  · intro p hp
    rw [hd]
    refine filter_key_length _ _ huq ?_
    exact insertPagesSkip_exists _ w.db (pageRowOf Hash p.U)
      (List.mem_map.2 ⟨p, hp, rfl⟩)

/-- C6 on a list with a persisted page, a new page and a repeated page. -/
theorem batchAddPages_no_throw_witness :
    (BatchAddPages idHash demoStorage [⟨urlA⟩, ⟨urlB⟩, ⟨urlA⟩] worldB).1 = .returned none ∧
    (BatchAddPages idHash demoStorage [⟨urlA⟩, ⟨urlB⟩, ⟨urlA⟩] worldB).2.db.pages =
      [pageRowOf idHash urlB, pageRowOf idHash urlA] ∧
    ∀ p ∈ [(⟨urlA⟩ : Page), ⟨urlB⟩, ⟨urlA⟩],
      ((BatchAddPages idHash demoStorage [⟨urlA⟩, ⟨urlB⟩, ⟨urlA⟩] worldB).2.db.pages.filter
        fun r => r.page_id = idHash p.U).length = 1 :=
  ⟨(batchAddPages_no_throw idHash demoStorage [⟨urlA⟩, ⟨urlB⟩, ⟨urlA⟩] worldB (by decide)
      (by decide) (fun _ => rfl) (by decide)).1,
    by decide,
    (batchAddPages_no_throw idHash demoStorage [⟨urlA⟩, ⟨urlB⟩, ⟨urlA⟩] worldB (by decide)
      (by decide) (fun _ => rfl) (by decide)).2.2.2.2.2.2⟩

/-- C6 fails as stated: on a storage whose page table has the quoted name
`"p?"`, `BatchAddPages` on one new page renumbers the `?` of the table name
too, prepares an insert into `"p$1"` with parameters `$2` to `$5`, and panics
on the nil statement instead of returning nil; and on the tables `pages` and
`links`, when the transport fails the `Exec` of the prepared statement,
`BatchAddPages` returns that error. -/
theorem batchAddPages_not_nil :
    (batchPagesStmt idHash quotedStorage [⟨urlA⟩]).1 =
      "INSERT INTO ".toList ++ Char.ofNat 34 :: 'p' :: '$' :: '1' :: Char.ofNat 34 ::
        " (page_id, host, path, url) VALUES ($2, $3, $4, $5) ON CONFLICT DO NOTHING".toList ∧
    (BatchAddPages idHash quotedStorage [⟨urlA⟩] emptyWorld).1 = .panicked ∧
    (BatchAddPages idHash demoStorage [⟨urlA⟩] worldSecondFails).1 =
      .returned (some (.transport 7)) := by
  decide

theorem stmtExec_trace (s : Storage) (st : Stmt) (vals : List Str) (w : World) :
    (stmtExec s st vals w).2.trace = w.trace ++ [.stmtExec st.sql vals] := by
  unfold stmtExec
  simp only [World.nextFault, World.emit]
  cases w.faults w.calls with
  | some e => rfl
  | none =>
    simp only []
    cases serverExec s st vals w.db <;> rfl

theorem serverPrepare_batchShape (s : Storage) (head : Str) (n : Nat) (hn : 1 ≤ n)
    (hh : head = pagesHead s ∨ head = linksHead s) :
    ∃ k, serverPrepare s (batchShape head n) = .ok ⟨batchShape head n, k⟩ := by
  unfold serverPrepare
  cases h1 : isBatchInsert (pagesHead s) (batchShape head n) with
  | true => exact ⟨.pages, by simp⟩
  | false =>
    rcases hh with rfl | rfl
    · rw [isBatchInsert_batchShape _ _ hn] at h1
      exact Bool.noConfusion h1
    · exact ⟨.links, by simp [isBatchInsert_batchShape _ _ hn]⟩

theorem prepareAndExec_trace (s : Storage) (head : Str) (n : Nat) (vals : List Str)
    (w : World) (hn : 1 ≤ n) (hh : head = pagesHead s ∨ head = linksHead s) :
    (prepareAndExec s (batchShape head n) vals w).2.trace =
      w.trace ++ Event.prepare (batchShape head n) ::
        (if (w.faults w.calls).isNone then [Event.stmtExec (batchShape head n) vals]
         else []) := by
  cases hc : w.faults w.calls with
  | some e =>
    simp [prepareAndExec, dbPrepare, World.emit, World.nextFault, hc]
  | none =>
    obtain ⟨k, hk⟩ := serverPrepare_batchShape s head n hn hh
    simp only [prepareAndExec, dbPrepare, World.emit, World.nextFault, hc, hk,
      stmtExec_trace]
    simp

/-- C10: for table names without `?` and non-empty lists, in every world,
the events of `BatchAddPages` (respectively `BatchAddLinks`) are the `Prepare`
of the statement text made of the `INSERT` prefix for the table, the `n`
groups `($4j+1, $4j+2, $4j+3, $4j+4)` for `j = 0..n-1` separated by commas,
and ` ON CONFLICT DO NOTHING`, followed, unless the transport fails the
`Prepare`, by the `Exec` of that statement with the `4n` fields of the
elements as arguments, four by four in input order; no `?` is left in the
text and the groups end in `)` (no trailing comma). -/
theorem batch_statement_shape (Hash : URL → Str) (s : Storage) (pages : List Page)
    (links : List Link) (w : World) (hp : '?' ∉ s.PageTable) (hl : '?' ∉ s.LinkTable)
    (hpn : 1 ≤ pages.length) (hln : 1 ≤ links.length) :
    ((BatchAddPages Hash s pages w).2.trace =
        w.trace ++
          Event.prepare
            ("INSERT INTO ".toList ++ s.PageTable ++
              " (page_id, host, path, url) VALUES ".toList ++
              valueGroups pages.length ++ " ON CONFLICT DO NOTHING".toList) ::
          (if (w.faults w.calls).isNone then
            [Event.stmtExec
              ("INSERT INTO ".toList ++ s.PageTable ++
                " (page_id, host, path, url) VALUES ".toList ++
                valueGroups pages.length ++ " ON CONFLICT DO NOTHING".toList)
              (pages.flatMap
                (fun p => [Hash p.U, p.U.hostname, p.U.escapedPath, p.U.string]))]
           else []) ∧
      (batchPagesStmt Hash s pages).1 =
        "INSERT INTO ".toList ++ s.PageTable ++ " (page_id, host, path, url) VALUES ".toList ++
          valueGroups pages.length ++ " ON CONFLICT DO NOTHING".toList ∧
      '?' ∉ (batchPagesStmt Hash s pages).1 ∧
      (∃ body, valueGroups pages.length = body ++ [')']) ∧
      (batchPagesStmt Hash s pages).2 =
        pages.flatMap (fun p => [Hash p.U, p.U.hostname, p.U.escapedPath, p.U.string]) ∧
      (batchPagesStmt Hash s pages).2.length = 4 * pages.length) ∧
    ((BatchAddLinks Hash s links w).2.trace =
        w.trace ++
          Event.prepare
            ("INSERT INTO ".toList ++ s.LinkTable ++
              " (from_page_id, to_page_id, text, type) VALUES ".toList ++
              valueGroups links.length ++ " ON CONFLICT DO NOTHING".toList) ::
          (if (w.faults w.calls).isNone then
            [Event.stmtExec
              ("INSERT INTO ".toList ++ s.LinkTable ++
                " (from_page_id, to_page_id, text, type) VALUES ".toList ++
                valueGroups links.length ++ " ON CONFLICT DO NOTHING".toList)
              (links.flatMap
                (fun l => [Hash l.FromU, Hash l.ToU, l.LinkText, l.LinkType]))]
           else []) ∧
      (batchLinksStmt Hash s links).1 =
        "INSERT INTO ".toList ++ s.LinkTable ++
          " (from_page_id, to_page_id, text, type) VALUES ".toList ++
          valueGroups links.length ++ " ON CONFLICT DO NOTHING".toList ∧
      '?' ∉ (batchLinksStmt Hash s links).1 ∧
      (∃ body, valueGroups links.length = body ++ [')']) ∧
      (batchLinksStmt Hash s links).2 =
        links.flatMap (fun l => [Hash l.FromU, Hash l.ToU, l.LinkText, l.LinkType]) ∧
      (batchLinksStmt Hash s links).2.length = 4 * links.length) := by
  have e1 := buildSql_eq (pagesHead s) pages.length (q_not_mem_pagesHead s hp) hpn
  have e2 := buildSql_eq (linksHead s) links.length (q_not_mem_linksHead s hl) hln
  obtain ⟨m1, hm1⟩ : ∃ m, pages.length = m + 1 := ⟨pages.length - 1, by omega⟩
  obtain ⟨m2, hm2⟩ : ∃ m, links.length = m + 1 := ⟨links.length - 1, by omega⟩
  have t1 := prepareAndExec_trace s (pagesHead s) pages.length
    (pages.flatMap (pageVals Hash)) w hpn (Or.inl rfl)
  have t2 := prepareAndExec_trace s (linksHead s) links.length
    (links.flatMap (linkVals Hash)) w hln (Or.inr rfl)
  have b1 : BatchAddPages Hash s pages w =
      prepareAndExec s (batchShape (pagesHead s) pages.length)
        (pages.flatMap (pageVals Hash)) w := by
    simp only [BatchAddPages, batchPagesStmt_eq, e1]
  have b2 : BatchAddLinks Hash s links w =
      prepareAndExec s (batchShape (linksHead s) links.length)
        (links.flatMap (linkVals Hash)) w := by
    simp only [BatchAddLinks, batchLinksStmt_eq, e2]
  rw [b1, b2, batchPagesStmt_eq, batchLinksStmt_eq]
  refine ⟨⟨t1, e1, ?_, ?_, rfl, length_flatMap_pageVals Hash pages⟩,
    ⟨t2, e2, ?_, ?_, rfl, length_flatMap_linkVals Hash links⟩⟩
  · show '?' ∉ buildSql (pagesHead s) pages.length
    rw [e1]; exact q_not_mem_batchShape _ _ (q_not_mem_pagesHead s hp)
  · rw [valueGroups_eq, hm1]; exact numText_ends m1 0
  · show '?' ∉ buildSql (linksHead s) links.length
    rw [e2]; exact q_not_mem_batchShape _ _ (q_not_mem_linksHead s hl)
  · rw [valueGroups_eq, hm2]; exact numText_ends m2 0

/-- C10 on two pages and on one link, from the page table holding `http://b/`:
the events of the two methods. -/
theorem batch_statement_shape_witness :
    (BatchAddPages idHash demoStorage [⟨urlA⟩, ⟨urlB⟩] worldB).2.trace =
      [.prepare
          ("INSERT INTO pages (page_id, host, path, url) VALUES " ++
            "($1, $2, $3, $4),($5, $6, $7, $8) ON CONFLICT DO NOTHING").toList,
        .stmtExec
          ("INSERT INTO pages (page_id, host, path, url) VALUES " ++
            "($1, $2, $3, $4),($5, $6, $7, $8) ON CONFLICT DO NOTHING").toList
          ["http://a/".toList, "a".toList, "/".toList, "http://a/".toList,
            "http://b/".toList, "b".toList, "/".toList, "http://b/".toList]] ∧
    (BatchAddLinks idHash demoStorage [⟨urlA, urlB, "x".toList, "nav".toList⟩]
        worldB).2.trace =
      [.prepare
          ("INSERT INTO links (from_page_id, to_page_id, text, type) VALUES " ++
            "($1, $2, $3, $4) ON CONFLICT DO NOTHING").toList,
        .stmtExec
          ("INSERT INTO links (from_page_id, to_page_id, text, type) VALUES " ++
            "($1, $2, $3, $4) ON CONFLICT DO NOTHING").toList
          ["http://a/".toList, "http://b/".toList, "x".toList, "nav".toList]] :=
  ⟨(batch_statement_shape idHash demoStorage [⟨urlA⟩, ⟨urlB⟩]
      [⟨urlA, urlB, "x".toList, "nav".toList⟩] worldB (by decide) (by decide) (by decide)
      (by decide)).1.1,
    (batch_statement_shape idHash demoStorage [⟨urlA⟩, ⟨urlB⟩]
      [⟨urlA, urlB, "x".toList, "nav".toList⟩] worldB (by decide) (by decide) (by decide)
      (by decide)).2.1⟩

/-- C7 fails on the code: with the pattern `$`, `ReplaceSQL("$ $", "$")`
counts two occurrences, replaces the first by `$1`, then replaces the first
`$` again (the one it has just written) by `$2`, and returns `$21 $`, while
replacing the i-th occurrence by `$i` gives `$1 $2`. -/
theorem replaceSQL_pattern_in_replacement :
    Count "$ $".toList "$".toList = 2 ∧
    ReplaceSQL "$ $".toList "$".toList = "$21 $".toList ∧
    numberOccurrences "$".toList 0 1 "$ $".toList = "$1 $2".toList ∧
    ReplaceSQL "$ $".toList "$".toList ≠ numberOccurrences "$".toList 0 1 "$ $".toList := by
  decide

/-! ## Concurrent calls of `AddPage` -/

theorem countP_set (p : Pc → Bool) (l : List Pc) : ∀ (i : Nat) (x y : Pc),
    l[i]? = some x →
    (l.set i y).countP p + (if p x then 1 else 0) = l.countP p + (if p y then 1 else 0) := by
  induction l with
  | nil => intro i x y h; simp at h
  | cons a t ih =>
    intro i x y h
    cases i with
    | zero =>
      simp only [List.getElem?_cons_zero, Option.some.injEq] at h
      subst h
      simp only [List.set_cons_zero, List.countP_cons]
      omega
    | succ j =>
      simp only [List.getElem?_cons_succ] at h
      have := ih j x y h
      simp only [List.set_cons_succ, List.countP_cons]
      omega

theorem rank_set (l : List Pc) : ∀ (i : Nat) (x y : Pc), l[i]? = some x →
    ((l.set i y).map Pc.rank).sum + x.rank = (l.map Pc.rank).sum + y.rank := by
  induction l with
  | nil => intro i x y h; simp at h
  | cons a t ih =>
    intro i x y h
    cases i with
    | zero =>
      simp only [List.getElem?_cons_zero, Option.some.injEq] at h
      subst h
      simp only [List.set_cons_zero, List.map_cons, List.sum_cons]
      omega
    | succ j =>
      simp only [List.getElem?_cons_succ] at h
      have := ih j x y h
      simp only [List.set_cons_succ, List.map_cons, List.sum_cons]
      omega

theorem rowsFor_of_not_exists (k : Str) (db : Tables) (h : pageExists db k = false) :
    rowsFor k db = 0 := by
  unfold rowsFor
  rw [List.length_eq_zero, List.filter_eq_nil_iff]
  intro r hr hk
  have : pageExists db k = true := by
    simp only [pageExists, List.any_eq_true]
    exact ⟨r, hr, by simpa using hk⟩
  rw [h] at this
  exact Bool.noConfusion this

theorem rowsFor_of_exists (k : Str) (db : Tables) (h : pageExists db k = true) :
    1 ≤ rowsFor k db := by
  simp only [pageExists, List.any_eq_true, beq_iff_eq] at h
  obtain ⟨r, hr, hk⟩ := h
  unfold rowsFor
  apply List.length_pos_of_mem (a := r)
  exact List.mem_filter.2 ⟨hr, by simpa using hk⟩

theorem rowsFor_append (k : Str) (db : Tables) (row : PageRow) (h : row.page_id = k) :
    rowsFor k ⟨db.pages ++ [row], db.links⟩ = rowsFor k db + 1 := by
  simp [rowsFor, List.filter_append, h]

theorem inv_update (k : Str) (n : Nat) (σ : Sys) (i : Nat) (t y : Pc) (db : Tables)
    (calls readers : Nat) (writer : Bool) (hinv : Inv k n σ) (ht : σ.threads[i]? = some t)
    (hrows : rowsFor k db + (if t.insertedRow then 1 else 0) =
      rowsFor k σ.db + (if y.insertedRow then 1 else 0))
    (hmost : rowsFor k db ≤ 1) (hmono : rowsFor k σ.db ≤ rowsFor k db)
    (hseen : y.sawRow = true → 1 ≤ rowsFor k db) (hviol : y.errorIsViolation = true)
    (hread : readers + (if t.holdsRead then 1 else 0) =
      σ.readers + (if y.holdsRead then 1 else 0))
    (hwrite : (if writer then 1 else 0) + (if t.holdsWrite then 1 else 0) =
      (if σ.writer then 1 else 0) + (if y.holdsWrite then 1 else 0)) :
    Inv k n ⟨db, σ.faults, calls, readers, writer, σ.threads.set i y⟩ := by
  have c1 := countP_set Pc.insertedRow σ.threads i t y ht
  have c2 := countP_set Pc.holdsRead σ.threads i t y ht
  have c3 := countP_set Pc.holdsWrite σ.threads i t y ht
  have h1 := hinv.rows
  have h2 := hinv.readers
  have h3 := hinv.writer
  refine ⟨hinv.nofault, ?_, ?_, hmost, ?_, ?_, ?_, ?_⟩
  · simp [hinv.len]
  · show rowsFor k db = (σ.threads.set i y).countP Pc.insertedRow
    omega
  · intro t1 h hs
    rcases List.mem_or_eq_of_mem_set h with h | rfl
    · exact le_trans (hinv.seen t1 h hs) hmono
    · exact hseen hs
  · intro t1 h
    rcases List.mem_or_eq_of_mem_set h with h | rfl
    · exact hinv.viol t1 h
    · exact hviol
  · show readers = (σ.threads.set i y).countP Pc.holdsRead
    omega
  · show (σ.threads.set i y).countP Pc.holdsWrite = if writer = true then 1 else 0
    omega

theorem inv_step (Hash : URL → Str) (u : URL) (n : Nat) (σ σ1 : Sys) (i : Nat)
    (hinv : Inv (Hash u) n σ) (hs : stepThread Hash u σ i = some σ1) :
    Inv (Hash u) n σ1 := by
  unfold stepThread at hs
  cases ht : σ.threads[i]? with
  | none => simp [ht] at hs
  | some t =>
    have hmem : t ∈ σ.threads := List.getElem?_mem ht
    have hup := inv_update (Hash u) n σ i t
    have hmost := hinv.atMost
    have hnf := hinv.nofault σ.calls
    cases t with
    | start =>
      simp only [ht] at hs
      split at hs
      · cases hs
      · rename_i hw
        cases hs
        exact hup .rlocked σ.db σ.calls (σ.readers + 1) σ.writer hinv ht
          (by simp [Pc.insertedRow]) hmost le_rfl (by simp [Pc.sawRow])
          (by simp [Pc.errorIsViolation]) (by simp [Pc.holdsRead]) (by simp [Pc.holdsWrite])
    | rlocked =>
      simp only [ht, hnf, Option.some.injEq] at hs
      subst hs
      refine hup (.queried (pageExists σ.db (Hash u)) none) σ.db (σ.calls + 1) σ.readers
        σ.writer hinv ht (by simp [Pc.insertedRow]) hmost le_rfl ?_
        (by simp [Pc.errorIsViolation]) (by simp [Pc.holdsRead]) (by simp [Pc.holdsWrite])
      intro hsaw
      cases hp : pageExists σ.db (Hash u) with
      | true => exact rowsFor_of_exists _ _ hp
      | false => simp [hp, Pc.sawRow] at hsaw
    | queried visited err =>
      have herr : err = none := by
        have := hinv.viol _ hmem
        simpa [Pc.errorIsViolation] using this
      subst herr
      simp only [ht, Option.some.injEq] at hs
      subst hs
      have hpos : 1 ≤ σ.readers := by
        rw [hinv.readers]
        exact List.countP_pos_iff.2 ⟨_, hmem, rfl⟩
      cases visited with
      | true =>
        refine hup (.done .noop) σ.db σ.calls (σ.readers - 1) σ.writer hinv ht
          (by simp [Pc.insertedRow]) hmost le_rfl ?_ (by simp [Pc.errorIsViolation])
          (by simp [Pc.holdsRead]; omega) (by simp [Pc.holdsWrite])
        intro _
        exact hinv.seen _ hmem rfl
      | false =>
        exact hup .unlocked σ.db σ.calls (σ.readers - 1) σ.writer hinv ht
          (by simp [Pc.insertedRow]) hmost le_rfl (by simp [Pc.sawRow])
          (by simp [Pc.errorIsViolation]) (by simp [Pc.holdsRead]; omega)
          (by simp [Pc.holdsWrite])
    | unlocked =>
      simp only [ht] at hs
      split at hs
      · cases hs
      · rename_i hw
        cases hs
        have hwf : σ.writer = false := by
          cases h : σ.writer with
          | true => simp [h] at hw
          | false => rfl
        exact hup .locked σ.db σ.calls σ.readers true hinv ht (by simp [Pc.insertedRow])
          hmost le_rfl (by simp [Pc.sawRow]) (by simp [Pc.errorIsViolation])
          (by simp [Pc.holdsRead]) (by simp [Pc.holdsWrite, hwf])
    | locked =>
      simp only [ht, hnf, insertPageRow] at hs
      cases hp : pageExists σ.db (Hash u) with
      | true =>
        simp only [hp, if_true, Option.some.injEq] at hs
        subst hs
        exact hup (.executed (some .uniqueViolation)) σ.db (σ.calls + 1) σ.readers σ.writer
          hinv ht (by simp [Pc.insertedRow]) hmost le_rfl (fun _ => rowsFor_of_exists _ _ hp)
          (by simp [Pc.errorIsViolation]) (by simp [Pc.holdsRead]) (by simp [Pc.holdsWrite])
      | false =>
        simp only [hp, Bool.false_eq_true, if_false, Option.some.injEq] at hs
        subst hs
        have h0 := rowsFor_of_not_exists _ _ hp
        have h1 := rowsFor_append (Hash u) σ.db
          ⟨Hash u, u.hostname, u.escapedPath, u.string⟩ rfl
        exact hup (.executed none) ⟨σ.db.pages ++ [⟨Hash u, u.hostname, u.escapedPath,
            u.string⟩], σ.db.links⟩ (σ.calls + 1) σ.readers σ.writer hinv ht
          (by simp [Pc.insertedRow]; omega) (by omega) (by omega) (fun _ => by omega)
          (by simp [Pc.errorIsViolation]) (by simp [Pc.holdsRead]) (by simp [Pc.holdsWrite])
    | executed err =>
      simp only [ht, Option.some.injEq] at hs
      subst hs
      have hw : σ.writer = true := by
        have h1 : 0 < σ.threads.countP Pc.holdsWrite :=
          List.countP_pos_iff.2 ⟨_, hmem, rfl⟩
        have h2 := hinv.writer
        cases h : σ.writer with
        | true => rfl
        | false =>
          rw [h] at h2
          simp only [Bool.false_eq_true, if_false] at h2
          omega
      cases err with
      | none =>
        exact hup (.done .inserted) σ.db σ.calls σ.readers false hinv ht
          (by simp [Pc.insertedRow]) hmost le_rfl (by simp [Pc.sawRow])
          (by simp [Pc.errorIsViolation]) (by simp [Pc.holdsRead])
          (by simp [Pc.holdsWrite, hw])
      | some e =>
        refine hup (.done (.failed e)) σ.db σ.calls σ.readers false hinv ht
          (by simp [Pc.insertedRow]) hmost le_rfl (fun _ => hinv.seen _ hmem rfl) ?_
          (by simp [Pc.holdsRead]) (by simp [Pc.holdsWrite, hw])
        exact hinv.viol (.executed (some e)) hmem
    | done f => simp [ht] at hs

theorem rank_lt_of_set (σ : Sys) (i : Nat) (t y : Pc) (ht : σ.threads[i]? = some t)
    (h : y.rank < t.rank) : ((σ.threads.set i y).map Pc.rank).sum < σ.rank := by
  have := rank_set σ.threads i t y ht
  unfold Sys.rank
  omega

theorem rank_step (Hash : URL → Str) (u : URL) (σ σ1 : Sys) (i : Nat)
    (hs : stepThread Hash u σ i = some σ1) : σ1.rank < σ.rank := by
  unfold stepThread at hs
  cases ht : σ.threads[i]? with
  | none => simp [ht] at hs
  | some t =>
    have hr := rank_lt_of_set σ i t
    cases t with
    | start =>
      simp only [ht] at hs
      split at hs
      · cases hs
      · cases hs
        exact hr .rlocked ht (by decide)
    | rlocked =>
      simp only [ht] at hs
      split at hs
      · cases hs
        exact hr (.queried false (some _)) ht (by simp [Pc.rank])
      · cases hs
        exact hr (.queried _ none) ht (by simp [Pc.rank])
    | queried visited err =>
      simp only [ht, Option.some.injEq] at hs
      subst hs
      cases err with
      | some e => exact hr (.done (.failed e)) ht (by simp [Pc.rank])
      | none =>
        cases visited with
        | true => exact hr (.done .noop) ht (by simp [Pc.rank])
        | false => exact hr .unlocked ht (by simp [Pc.rank])
    | unlocked =>
      simp only [ht] at hs
      split at hs
      · cases hs
      · cases hs
        exact hr .locked ht (by decide)
    | locked =>
      simp only [ht] at hs
      split at hs
      · cases hs
        exact hr (.executed (some _)) ht (by simp [Pc.rank])
      · split at hs
        · cases hs
          exact hr (.executed none) ht (by simp [Pc.rank])
        · cases hs
          exact hr (.executed (some _)) ht (by simp [Pc.rank])
    | executed err =>
      simp only [ht, Option.some.injEq] at hs
      subst hs
      cases err with
      | none => exact hr (.done .inserted) ht (by simp [Pc.rank])
      | some e => exact hr (.done (.failed e)) ht (by simp [Pc.rank])
    | done f => simp [ht] at hs

theorem step_of_holder (Hash : URL → Str) (u : URL) (σ : Sys) (j : Nat) (t : Pc)
    (ht : σ.threads[j]? = some t) (hh : t.holdsRead = true ∨ t.holdsWrite = true) :
    ∃ σ1, stepThread Hash u σ j = some σ1 := by
  unfold stepThread
  cases t with
  | start => simp [Pc.holdsRead, Pc.holdsWrite] at hh
  | unlocked => simp [Pc.holdsRead, Pc.holdsWrite] at hh
  | done f => simp [Pc.holdsRead, Pc.holdsWrite] at hh
  | rlocked =>
    simp only [ht]
    cases σ.faults σ.calls <;> simp
  | queried v e => simp [ht]
  | executed e => simp [ht]
  | locked =>
    simp only [ht]
    cases σ.faults σ.calls with
    | some e => simp
    | none =>
      cases insertPageRow σ.db ⟨Hash u, u.hostname, u.escapedPath, u.string⟩ <;> simp

theorem progress (Hash : URL → Str) (u : URL) (k : Str) (n : Nat) (σ : Sys)
    (hinv : Inv k n σ) (hd : σ.allDone = false) :
    ∃ i σ1, stepThread Hash u σ i = some σ1 := by
  obtain ⟨t, hmem, hnd⟩ := List.all_eq_false.1 hd
  obtain ⟨i, ht⟩ := List.getElem?_of_mem hmem
  have hwriter : σ.writer = true → ∃ i σ1, stepThread Hash u σ i = some σ1 := by
    intro hw
    have h := hinv.writer
    rw [hw, if_pos rfl] at h
    have hpos : 0 < σ.threads.countP Pc.holdsWrite := by omega
    obtain ⟨t1, hm1, hh1⟩ := List.countP_pos_iff.1 hpos
    obtain ⟨j, hj⟩ := List.getElem?_of_mem hm1
    exact ⟨j, step_of_holder Hash u σ j t1 hj (Or.inr hh1)⟩
  have hreaders : σ.readers ≠ 0 → ∃ i σ1, stepThread Hash u σ i = some σ1 := by
    intro hr
    have h := hinv.readers
    have hpos : 0 < σ.threads.countP Pc.holdsRead := by omega
    obtain ⟨t1, hm1, hh1⟩ := List.countP_pos_iff.1 hpos
    obtain ⟨j, hj⟩ := List.getElem?_of_mem hm1
    exact ⟨j, step_of_holder Hash u σ j t1 hj (Or.inl hh1)⟩
  cases t with
  | done f => simp [Pc.isDone] at hnd
  | rlocked => exact ⟨i, step_of_holder Hash u σ i _ ht (Or.inl rfl)⟩
  | queried v e => exact ⟨i, step_of_holder Hash u σ i _ ht (Or.inl rfl)⟩
  | locked => exact ⟨i, step_of_holder Hash u σ i _ ht (Or.inr rfl)⟩
  | executed e => exact ⟨i, step_of_holder Hash u σ i _ ht (Or.inr rfl)⟩
  | start =>
    cases hw : σ.writer with
    | true => exact hwriter hw
    | false => exact ⟨i, by unfold stepThread; simp [ht, hw]⟩
  | unlocked =>
    cases hw : σ.writer with
    | true => exact hwriter hw
    | false =>
      by_cases hr : σ.readers = 0
      · exact ⟨i, by unfold stepThread; simp [ht, hw, hr]⟩
      · exact hreaders hr

theorem runSchedule_append (Hash : URL → Str) (u : URL) (a b : List Nat) : ∀ σ : Sys,
    runSchedule Hash u (a ++ b) σ = runSchedule Hash u b (runSchedule Hash u a σ) := by
  induction a with
  | nil => intro σ; rfl
  | cons i rest ih =>
    intro σ
    show runSchedule Hash u (rest ++ b) _ = _
    exact ih _

theorem inv_run (Hash : URL → Str) (u : URL) (n : Nat) (sched : List Nat) : ∀ σ : Sys,
    Inv (Hash u) n σ → Inv (Hash u) n (runSchedule Hash u sched σ) := by
  induction sched with
  | nil => intro σ h; exact h
  | cons i rest ih =>
    intro σ h
    rw [runSchedule]
    apply ih
    cases hs : stepThread Hash u σ i with
    | none => exact h
    | some σ1 => exact inv_step Hash u n σ σ1 i h hs

theorem completion (Hash : URL → Str) (u : URL) (n : Nat) (r : Nat) : ∀ σ : Sys,
    σ.rank ≤ r → Inv (Hash u) n σ →
    ∃ more, (runSchedule Hash u more σ).allDone = true := by
  induction r with
  | zero =>
    intro σ hr hinv
    cases hd : σ.allDone with
    | true => exact ⟨[], hd⟩
    | false =>
      obtain ⟨i, σ1, hs⟩ := progress Hash u (Hash u) n σ hinv hd
      have := rank_step Hash u σ σ1 i hs
      omega
  | succ r ih =>
    intro σ hr hinv
    cases hd : σ.allDone with
    | true => exact ⟨[], hd⟩
    | false =>
      obtain ⟨i, σ1, hs⟩ := progress Hash u (Hash u) n σ hinv hd
      have hlt := rank_step Hash u σ σ1 i hs
      obtain ⟨more, hm⟩ := ih σ1 (by omega) (inv_step Hash u n σ σ1 i hinv hs)
      exact ⟨i :: more, by simp only [runSchedule, hs, Option.getD_some]; exact hm⟩

theorem inv_init (k : Str) (n : Nat) (db : Tables) (faults : Nat → Option DbError)
    (hf : ∀ j, faults j = none) (h : pageExists db k = false) :
    Inv k n (initSys db faults n) := by
  have h0 := rowsFor_of_not_exists k db h
  have hz : ∀ p : Pc → Bool, p .start = false →
      (List.replicate n Pc.start).countP p = 0 := by
    intro p hp
    rw [List.countP_eq_zero]
    intro a ha
    rw [List.eq_of_mem_replicate ha, hp]
    exact Bool.false_ne_true
  refine ⟨hf, ?_, ?_, ?_, ?_, ?_, ?_, ?_⟩
  · simp [initSys]
  · show rowsFor k db = (List.replicate n Pc.start).countP Pc.insertedRow
    rw [h0, hz _ rfl]
  · show rowsFor k db ≤ 1
    omega
  · intro t ht hs
    rw [List.eq_of_mem_replicate ht] at hs
    exact absurd hs (by decide)
  · intro t ht
    rw [List.eq_of_mem_replicate ht]
    rfl
  · show 0 = (List.replicate n Pc.start).countP Pc.holdsRead
    rw [hz _ rfl]
  · show (List.replicate n Pc.start).countP Pc.holdsWrite = if false = true then 1 else 0
    rw [hz _ rfl]
    rfl

theorem count_done (l : List Pc) (hd : ∀ t ∈ l, t.isDone = true)
    (hv : ∀ t ∈ l, t.errorIsViolation = true) :
    l.countP Pc.alreadyExists + l.countP Pc.insertedRow = l.length := by
  induction l with
  | nil => rfl
  | cons t rest ih =>
    have h1 := ih (fun x hx => hd x (List.mem_cons_of_mem _ hx))
      (fun x hx => hv x (List.mem_cons_of_mem _ hx))
    have h2 := hd t (List.mem_cons_self _ _)
    have h3 := hv t (List.mem_cons_self _ _)
    cases t with
    | done f =>
      cases f with
      | noop => simp [List.countP_cons, Pc.alreadyExists, Pc.insertedRow]; omega
      | inserted => simp [List.countP_cons, Pc.alreadyExists, Pc.insertedRow]; omega
      | failed e =>
        simp only [Pc.errorIsViolation, decide_eq_true_eq] at h3
        subst h3
        simp [List.countP_cons, Pc.alreadyExists, Pc.insertedRow]; omega
    | start => simp [Pc.isDone] at h2
    | rlocked => simp [Pc.isDone] at h2
    | queried v e => simp [Pc.isDone] at h2
    | unlocked => simp [Pc.isDone] at h2
    | locked => simp [Pc.isDone] at h2
    | executed e => simp [Pc.isDone] at h2

theorem inv_final (k : Str) (n : Nat) (σ : Sys) (hinv : Inv k n σ) (hn : 1 ≤ n)
    (hd : σ.allDone = true) :
    rowsFor k σ.db = 1 ∧ σ.threads.countP Pc.alreadyExists ≤ n - 1 := by
  have hall := List.all_eq_true.1 hd
  have hc := count_done σ.threads hall hinv.viol
  have hlen := hinv.len
  have hrows := hinv.rows
  have hmost := hinv.atMost
  have hpos : 1 ≤ rowsFor k σ.db := by
    cases hthr : σ.threads with
    | nil => rw [hthr] at hlen; simp at hlen; omega
    | cons t rest =>
      have hmem : t ∈ σ.threads := by rw [hthr]; exact List.mem_cons_self _ _
      have hdone := hall t hmem
      cases t with
      | done f =>
        cases f with
        | noop => exact hinv.seen _ hmem rfl
        | failed e => exact hinv.seen _ hmem rfl
        | inserted =>
          have : 0 < σ.threads.countP Pc.insertedRow :=
            List.countP_pos_iff.2 ⟨_, hmem, rfl⟩
          omega
      | start => simp [Pc.isDone] at hdone
      | rlocked => simp [Pc.isDone] at hdone
      | queried v e => simp [Pc.isDone] at hdone
      | unlocked => simp [Pc.isDone] at hdone
      | locked => simp [Pc.isDone] at hdone
      | executed e => simp [Pc.isDone] at hdone
  constructor <;> omega

theorem runSchedule_single (Hash : URL → Str) (s : Storage) (u : URL) (w : World)
    (hf : w.NoFaults) :
    (runSchedule Hash u [0, 0, 0, 0, 0, 0] (initSys w.db w.faults 1)).db =
      (AddPage Hash s u w).2.db ∧
    (runSchedule Hash u [0, 0, 0, 0, 0, 0] (initSys w.db w.faults 1)).allDone = true := by
  rw [(addPage_noFaults Hash s u w hf).2.2]
  have h0 := hf 0
  have h1 := hf 1
  cases hp : pageExists w.db (Hash u) <;>
    simp [runSchedule, stepThread, initSys, hp, insertPageRow, Sys.allDone, Pc.isDone, h0, h1]

/-- C9, as the code has it: `N >= 1` calls of `AddPage(u)` run concurrently on
tables with no row for `Hash(u)`, each advancing by its lock operations and
database calls in program order under the rules of the read-write lock. When
no database call fails in the transport, then whatever the interleaving, the
calls can always be run to their end, and when all have returned the page
table holds exactly one row with `page_id = Hash(u)` and at most `N - 1`
calls have returned with an "already exists" outcome (the no-op return or the
primary-key violation). -/
theorem concurrent_addPage (Hash : URL → Str) (u : URL) (db : Tables)
    (faults : Nat → Option DbError) (n : Nat) (sched : List Nat) (hn : 1 ≤ n)
    (hf : ∀ j, faults j = none) (hno : pageExists db (Hash u) = false) :
    ((runSchedule Hash u sched (initSys db faults n)).allDone = true →
      rowsFor (Hash u) (runSchedule Hash u sched (initSys db faults n)).db = 1 ∧
      (runSchedule Hash u sched (initSys db faults n)).threads.countP Pc.alreadyExists
        ≤ n - 1) ∧
    ∃ more, (runSchedule Hash u (sched ++ more) (initSys db faults n)).allDone = true := by
  have hinv := inv_run Hash u n sched _ (inv_init (Hash u) n db faults hf hno)
  refine ⟨fun hd => inv_final _ n _ hinv hn hd, ?_⟩
  obtain ⟨more, hm⟩ := completion Hash u n _ _ le_rfl hinv
  exact ⟨more, by rw [runSchedule_append]; exact hm⟩

/-- C9 on two calls that both find no row: the first inserts, the second
meets the primary-key violation. -/
theorem concurrent_addPage_witness :
    pageExists worldB.db (idHash urlA) = false ∧
    (runSchedule idHash urlA [0, 1, 0, 1, 0, 1, 0, 1, 0, 1, 0, 1, 1, 1]
      (initSys worldB.db (fun _ => none) 2)).threads =
      [.done .inserted, .done (.failed .uniqueViolation)] ∧
    rowsFor (idHash urlA) (runSchedule idHash urlA [0, 1, 0, 1, 0, 1, 0, 1, 0, 1, 0, 1, 1, 1]
      (initSys worldB.db (fun _ => none) 2)).db = 1 ∧
    (runSchedule idHash urlA [0, 1, 0, 1, 0, 1, 0, 1, 0, 1, 0, 1, 1, 1]
      (initSys worldB.db (fun _ => none) 2)).threads.countP Pc.alreadyExists ≤ 2 - 1 :=
  ⟨by decide, by decide,
    (concurrent_addPage idHash urlA worldB.db (fun _ => none) 2
      [0, 1, 0, 1, 0, 1, 0, 1, 0, 1, 0, 1, 1, 1] (by decide) (fun _ => rfl) (by decide)).1
      (by decide)⟩

/-- C9 fails as stated: when the transport fails the existence queries, two
concurrent calls of `AddPage(http://a/)` both return the error, nothing is
inserted, and the page table ends with no row for the key. -/
theorem concurrent_addPage_transport_failure :
    pageExists worldB.db (idHash urlA) = false ∧
    (runSchedule idHash urlA [0, 1, 0, 1, 0, 1]
      (initSys worldB.db (fun _ => some (.transport 7)) 2)).threads =
      [.done (.failed (.transport 7)), .done (.failed (.transport 7))] ∧
    rowsFor (idHash urlA) (runSchedule idHash urlA [0, 1, 0, 1, 0, 1]
      (initSys worldB.db (fun _ => some (.transport 7)) 2)).db = 0 := by
  decide

end Crawler
